import Mathlib

/-!
# Frame reassembly of `HyperDMABUFCommunicator`

A shallow embedding of `src/clients/vmdisplay/vmdisplay-server-hyperdmabuf.cpp`:
`init`, `cleanup`, `recv_data`, `send_data` and `recv_metadata`. For
`recv_metadata` the results of `recv_data` are given as an input stream; for
`recv_data` the outcomes of `poll` are given as an input sequence and the `read`
calls it issues are recorded.

Modelling conventions.

* `int` members and locals are mathematical integers (`Int`, or `Nat` for the
  ones that only count up from a non-negative start: `offset[]`, `num_buffers`).
  They are not bounded; where the width of `int` matters, the statement carries
  the bound `INT_MAX`, and `cursor_advance` gives what the `int` cursor holds.
* The include files are not part of the sources, so `VM_MAX_OUTPUTS` and the
  three `sizeof` values are fields of `Layout`.
* Destination memory is modelled byte by byte with symbolic bytes (`Cell`): the
  `j`-th byte of the object representation of a header or of a descriptor.
* An array access `buffer[i]`, `offset[i]` with `i` outside
  `0 .. VM_MAX_OUTPUTS-1`, a read of the never assigned local `last_hdr`, and a
  dereference of a null `buf_info` are reported as a `Fault`.
-/

namespace HyperDMABUF

/-- Constants of the missing include files: `VM_MAX_OUTPUTS`,
`sizeof(struct vm_header)`, `sizeof(struct vm_buffer_info)` and
`sizeof(struct hyper_dmabuf_event_hdr)`. -/
structure Layout where
  VM_MAX_OUTPUTS : Nat
  sizeof_vm_header : Nat
  sizeof_vm_buffer_info : Nat
  sizeof_event_hdr : Nat
deriving DecidableEq, Repr

/-- Fields of `struct vm_header` the code reads or writes: `output`, `counter`,
`n_buffers`; `other` stands for all remaining fields, which the code only
copies. -/
structure vm_header where
  output : Int
  counter : Int
  n_buffers : Int
  other : Nat
deriving DecidableEq, Repr

/-- Fields of `struct vm_buffer_info`: `hyper_dmabuf_id`, the only field the
code writes, and `payload` for all remaining fields. -/
structure vm_buffer_info where
  hyper_dmabuf_id : Nat
  payload : Nat
deriving DecidableEq, Repr

/-- Content of the scratch area `metadata`, seen through the three casts of
lines 152-161: the `hid` of the `hyper_dmabuf_event_hdr`, then the `vm_header`,
then the `vm_buffer_info`. -/
structure Scratch where
  hid : Nat
  hdr : vm_header
  info : vm_buffer_info
deriving DecidableEq, Repr

/-- One result of `recv_data(metadata, ...)`: the returned length, and the
content of `metadata` when the call comes back. The content is looked at only
when `len` is not negative; a failed call leaves the scratch area as it was. -/
structure ReadResult where
  len : Int
  data : Scratch
deriving DecidableEq, Repr

/-- A symbolic byte of destination memory: byte `j` of a header or byte `j` of
a buffer descriptor. -/
inductive Cell where
  | hdr (h : vm_header) (j : Nat)
  | info (b : vm_buffer_info) (j : Nat)
deriving DecidableEq, Repr

/-- The two values of `HyperCommunicatorDirection`. -/
inductive HyperCommunicatorDirection where
  | Sender
  | Receiver
deriving DecidableEq, Repr

/-- Data members of `HyperDMABUFCommunicator`. `metadata` records whether the
scratch pointer is non-null; `hdr` and `buf_info` are `none` for a null pointer
and otherwise hold what the pointer currently views in the scratch area. -/
structure Communicator where
  hyper_dmabuf_fd : Int
  direction : HyperCommunicatorDirection
  metadata : Bool
  hdr : Option vm_header
  buf_info : Option vm_buffer_info
  last_counter : Int
  offset : Nat → Nat

/-- The ways in which the embedding leaves defined behaviour. -/
inductive Fault where
  | out_of_bounds (index : Int)
  | uninitialised
  | null_pointer
deriving DecidableEq, Repr

/-- Array update: `a[i] = v`. -/
def setAt {α : Type} (a : Nat → α) (i : Nat) (v : α) : Nat → α :=
  fun k => if k = i then v else a k

/-- The effect of `memcpy(dst + pos, src, size)` on the region `dst`. -/
def memcpy (dst : Nat → Option Cell) (pos size : Nat) (src : Nat → Cell) :
    Nat → Option Cell :=
  fun a => if pos ≤ a ∧ a < pos + size then some (src (a - pos)) else dst a

/-- `HyperDMABUFCommunicator::init` (lines 42-72). `open1` and `open2` are the
values the two `open` calls return; the second is consulted only when the first
is negative. -/
def init (L : Layout) (s : Communicator) (dir : HyperCommunicatorDirection)
    (open1 open2 : Int) : Int × Communicator :=
  if dir = HyperCommunicatorDirection.Receiver then
    let fd := if open1 < 0 then open2 else open1
    let s1 := { s with hyper_dmabuf_fd := fd }
    if fd < 0 then (-1, s1)
    else
      (0, { s1 with
              direction := dir
              metadata := true
              hdr := none
              buf_info := none
              last_counter := -1
              offset := fun i => if i < L.VM_MAX_OUTPUTS then L.sizeof_vm_header
                                 else s1.offset i })
  else (-1, s)

/-- The state of one `recv_metadata` activation: the object, the destination
regions `buffer[0..]` of the caller, and the locals `last_hdr` (`none` while
never assigned) and `num_buffers`. -/
structure Cfg where
  self : Communicator
  buffer : Nat → Nat → Option Cell
  last_hdr : Option vm_header
  num_buffers : Nat

/-- The append of lines 134-139 and of lines 173-179: copy the descriptor to
`buffer[output] + offset[output]`, advance the cursor, count the descriptor and
remember its counter. -/
def fold (L : Layout) (c : Cfg) (h : vm_header) (b : vm_buffer_info) :
    Except Fault Cfg :=
  if 0 ≤ h.output ∧ h.output < L.VM_MAX_OUTPUTS then
    let o := h.output.toNat
    Except.ok
      { c with
        buffer := setAt c.buffer o
          (memcpy (c.buffer o) (c.self.offset o) L.sizeof_vm_buffer_info (Cell.info b))
        self := { c.self with
                  offset := setAt c.self.offset o
                    (c.self.offset o + L.sizeof_vm_buffer_info)
                  last_counter := h.counter }
        num_buffers := c.num_buffers + 1 }
  else Except.error (Fault.out_of_bounds h.output)

/-- Lines 129-142, the head of the loop body: refresh `last_hdr` from `hdr`,
then either append the previously decoded record or clear `last_counter`. -/
def loop_top (L : Layout) (c : Cfg) : Except Fault Cfg :=
  match c.self.hdr with
  | none => Except.ok { c with self := { c.self with last_counter := -1 } }
  | some h =>
    let c1 := { c with last_hdr := some h }
    if h.counter ≠ c1.self.last_counter then
      match c1.self.buf_info with
      | some b => fold L c1 h b
      | none => Except.error Fault.null_pointer
    else Except.ok { c1 with self := { c1.self with last_counter := -1 } }

/-- Line 164, `buf_info->hyper_dmabuf_id = event_hdr->hid`: the descriptor of the
scratch area with its identifier overwritten by the event id. -/
def stamp (d : Scratch) : vm_buffer_info :=
  { d.info with hyper_dmabuf_id := d.hid }

/-- What the rest of the loop body does with a configuration. -/
inductive Step where
  | next (c : Cfg)
  | emit (c : Cfg)
  | fault (f : Fault)

/-- Lines 149-199, the loop body after `recv_data` came back with `r`. `emit c`
stands for reaching line 188 in configuration `c`. -/
def after_read (L : Layout) (c : Cfg) (r : ReadResult) : Step :=
  if r.len < 0 then Step.next c
  else
    let h := r.data.hdr
    let b := stamp r.data
    let c1 := { c with self := { c.self with hdr := some h, buf_info := some b } }
    if h.output < L.VM_MAX_OUTPUTS then
      match (if c1.self.last_counter = -1 ∨ h.counter = c1.self.last_counter
             then fold L c1 h b else Except.ok c1) with
      | Except.error f => Step.fault f
      | Except.ok c2 =>
        if h.counter ≠ c2.self.last_counter ∨ (c2.num_buffers : Int) = h.n_buffers
        then Step.emit c2 else Step.next c2
    else Step.next c1

/-- How the `while (1)` loop ends on a finite stream of `recv_data` results:
at line 188 with the unread results, blocked in `recv_data` once the stream is
used up, or in a fault. -/
inductive Stop where
  | emit (c : Cfg) (rest : List ReadResult)
  | blocked (c : Cfg)
  | fault (f : Fault)

/-- The `while (1)` loop of lines 124-200. -/
def recv_loop (L : Layout) : Cfg → List ReadResult → Stop
  | c, [] =>
    match loop_top L c with
    | Except.error f => Stop.fault f
    | Except.ok c1 => Stop.blocked c1
  | c, r :: rest =>
    match loop_top L c with
    | Except.error f => Stop.fault f
    | Except.ok c1 =>
      match after_read L c1 r with
      | Step.fault f => Stop.fault f
      | Step.emit c2 => Stop.emit c2 rest
      | Step.next c2 => recv_loop L c2 rest

/-- Result of one call of `recv_metadata`. -/
inductive Outcome where
  | ret (value : Int) (self : Communicator) (buffer : Nat → Nat → Option Cell)
      (rest : List ReadResult)
  | blocked (c : Cfg)
  | fault (f : Fault)

/-- Lines 188-196: finalise `last_hdr`, copy it to the start of
`buffer[last_hdr.output]`, reset that cursor and return the index. -/
def emit (L : Layout) (c : Cfg) (rest : List ReadResult) : Outcome :=
  match c.last_hdr with
  | none => Outcome.fault Fault.uninitialised
  | some l =>
    let last_hdr : vm_header := { l with n_buffers := (c.num_buffers : Int) }
    if 0 ≤ last_hdr.output ∧ last_hdr.output < L.VM_MAX_OUTPUTS then
      let o := last_hdr.output.toNat
      Outcome.ret last_hdr.output
        { c.self with offset := setAt c.self.offset o L.sizeof_vm_header }
        (setAt c.buffer o (memcpy (c.buffer o) 0 L.sizeof_vm_header (Cell.hdr last_hdr)))
        rest
    else Outcome.fault (Fault.out_of_bounds last_hdr.output)

/-- Entry of `recv_metadata` (lines 118-122): `last_hdr` not assigned,
`num_buffers = 0`. -/
def enter (self : Communicator) (buffer : Nat → Nat → Option Cell) : Cfg :=
  { self := self, buffer := buffer, last_hdr := none, num_buffers := 0 }

/-- `HyperDMABUFCommunicator::recv_metadata` (lines 116-201) on the destination
regions `buffer` and the stream of `recv_data` results. -/
def recv_metadata (L : Layout) (self : Communicator)
    (buffer : Nat → Nat → Option Cell) (stream : List ReadResult) : Outcome :=
  match recv_loop L (enter self buffer) stream with
  | Stop.emit c rest => emit L c rest
  | Stop.blocked c => Outcome.blocked c
  | Stop.fault f => Outcome.fault f

/-- The state a successful `init` leaves for the reassembly: no decoded record,
`last_counter = -1`, every cursor at `sizeof(struct vm_header)`. -/
def Fresh (L : Layout) (s : Communicator) : Prop :=
  s.hdr = none ∧ s.buf_info = none ∧ s.last_counter = -1 ∧
    ∀ i, i < L.VM_MAX_OUTPUTS → s.offset i = L.sizeof_vm_header

instance (L : Layout) (s : Communicator) : Decidable (Fresh L s) := by
  unfold Fresh; infer_instance

/-- The length `recv_metadata` asks `recv_data` for (lines 145-147). -/
def record_size (L : Layout) : Int :=
  (L.sizeof_vm_header + L.sizeof_vm_buffer_info + L.sizeof_event_hdr : Nat)

/-- Configuration after lines 152-179 when the descriptor of `r` is appended. -/
def append_record (L : Layout) (c : Cfg) (r : ReadResult) : Cfg :=
  { c with
    buffer := setAt c.buffer r.data.hdr.output.toNat
      (memcpy (c.buffer r.data.hdr.output.toNat) (c.self.offset r.data.hdr.output.toNat)
        L.sizeof_vm_buffer_info (Cell.info (stamp r.data)))
    self := { c.self with
              hdr := some r.data.hdr
              buf_info := some (stamp r.data)
              offset := setAt c.self.offset r.data.hdr.output.toNat
                (c.self.offset r.data.hdr.output.toNat + L.sizeof_vm_buffer_info)
              last_counter := r.data.hdr.counter }
    num_buffers := c.num_buffers + 1 }

/-- Value a call returned, if it returned. -/
def Outcome.value : Outcome → Option Int
  | Outcome.ret v _ _ _ => some v
  | _ => none

/-- Byte `a` of `buffer[o]` after a call that returned. -/
def Outcome.byte (x : Outcome) (o a : Nat) : Option Cell :=
  match x with
  | Outcome.ret _ _ b _ => b o a
  | _ => none

/-- Results of `recv_data` a call left unread, if it returned. -/
def Outcome.unread : Outcome → Option (List ReadResult)
  | Outcome.ret _ _ _ rest => some rest
  | _ => none

/-- Fault in which a call ended, if it did. -/
def Outcome.failure : Outcome → Option Fault
  | Outcome.fault f => some f
  | _ => none

/-- Configuration in which a call blocked in `recv_data`, if it did. -/
def Outcome.waiting : Outcome → Option Cfg
  | Outcome.blocked c => some c
  | _ => none

/-- Configuration in which the loop stopped without a fault. -/
def Stop.cfg : Stop → Option Cfg
  | Stop.emit c _ => some c
  | Stop.blocked c => some c
  | Stop.fault _ => none

/-- A sample layout for concrete evaluations. -/
def sampleLayout : Layout :=
  { VM_MAX_OUTPUTS := 4, sizeof_vm_header := 24, sizeof_vm_buffer_info := 100,
    sizeof_event_hdr := 28 }

/-- An object before `init`. -/
def blank : Communicator :=
  { hyper_dmabuf_fd := -1, direction := HyperCommunicatorDirection.Sender, metadata := false,
    hdr := none, buf_info := none, last_counter := 0, offset := fun _ => 0 }

/-- The object after `init` for the receive direction with the first `open`
returning descriptor 3. -/
def sampleFresh : Communicator :=
  (init sampleLayout blank HyperCommunicatorDirection.Receiver 3 (-1)).2

/-- Destination regions nothing was written to. -/
def emptyBuffers : Nat → Nat → Option Cell := fun _ _ => none

/-- A full record for output `o` with counter `c`, `n` declared buffers and
event id `id`. -/
def sampleRecord (o c n : Int) (id : Nat) : ReadResult :=
  { len := record_size sampleLayout,
    data := { hid := id, hdr := { output := o, counter := c, n_buffers := n, other := 0 },
              info := { hyper_dmabuf_id := 0, payload := id } } }

/-- A failed `recv_data`. -/
def failedRead : ReadResult :=
  { len := -1,
    data := { hid := 0, hdr := { output := 0, counter := 0, n_buffers := 0, other := 0 },
              info := { hyper_dmabuf_id := 0, payload := 0 } } }

/-- The caller invoking `recv_metadata` up to `n` times in a row on the same
destination regions. Each entry tells how the loop of one call stopped: in
`Stop.emit c rest` the configuration `c` is the one at line 188, just before the
header write and the cursor reset. The run ends with the first call that does
not return. -/
def calls (L : Layout) : Nat → Communicator → (Nat → Nat → Option Cell) →
    List ReadResult → List Stop
  | 0, _, _, _ => []
  | n + 1, s, buffer, stream =>
    match recv_loop L (enter s buffer) stream with
    | Stop.emit c rest =>
      Stop.emit c rest ::
        (match emit L c rest with
         | Outcome.ret _ s' buffer' rest' => calls L n s' buffer' rest'
         | _ => [])
    | x => [x]

/-- Between calls, on a stream whose records all target output `O`: the record
decoded last, if any, targets `O` and has been counted, and the cursor of `O`
is at the header size. -/
def BetweenCalls (L : Layout) (O : Int) (s : Communicator) : Prop :=
  (∀ h, s.hdr = some h → h.counter = s.last_counter ∧ h.output = O) ∧
  s.offset O.toNat = L.sizeof_vm_header

/-- At the head of the loop, on a stream whose records all target output `O`:
as `BetweenCalls`, with the cursor of `O` advanced by one descriptor for each
counted buffer, and `last_hdr`, once assigned, targeting `O`. -/
def AtHead (L : Layout) (O : Int) (c : Cfg) : Prop :=
  (∀ h, c.self.hdr = some h → h.counter = c.self.last_counter ∧ h.output = O) ∧
  c.self.offset O.toNat = L.sizeof_vm_header + c.num_buffers * L.sizeof_vm_buffer_info ∧
  (∀ l, c.last_hdr = some l → l.output = O)

/-- Before `recv_data`, on a stream whose records all target output `O`. -/
def BeforeRead (L : Layout) (O : Int) (c : Cfg) : Prop :=
  c.self.last_counter = -1 ∧
  c.self.offset O.toNat = L.sizeof_vm_header + c.num_buffers * L.sizeof_vm_buffer_info ∧
  (∀ l, c.last_hdr = some l → l.output = O)

/-- Frame discipline of a stream of `recv_data` results: every result is a full
record for an in-range output, and the records come frame by frame. A frame is
`m` records, `1 ≤ m ≤ K`, that target one output and all declare
`n_buffers = m`; the last frame may be incomplete; a frame of a single record
directly follows a record for the same output. `k` is the number of records of
the current frame already seen (0 between frames), `m` its declared count, and
`prev` the output of the record before, if any. -/
def Framed (L : Layout) (K : Nat) : Nat → Int → Option Int → List ReadResult → Prop
  | _, _, _, [] => True
  | k, m, prev, r :: rest =>
    r.len = record_size L ∧ 0 ≤ r.data.hdr.output ∧ r.data.hdr.output < L.VM_MAX_OUTPUTS ∧
    (if k = 0 then
      1 ≤ r.data.hdr.n_buffers ∧ r.data.hdr.n_buffers ≤ K ∧
      (r.data.hdr.n_buffers = 1 → prev = some r.data.hdr.output) ∧
      Framed L K (if r.data.hdr.n_buffers = 1 then 0 else 1) r.data.hdr.n_buffers
        (some r.data.hdr.output) rest
    else
      r.data.hdr.n_buffers = m ∧ prev = some r.data.hdr.output ∧
      Framed L K (if ((k + 1 : Nat) : Int) = m then 0 else k + 1) m
        (some r.data.hdr.output) rest)

/-- Decision procedure for `Framed`. -/
def Framed.decide (L : Layout) (K : Nat) :
    (stream : List ReadResult) → (k : Nat) → (m : Int) → (prev : Option Int) →
      Decidable (Framed L K k m prev stream)
  | [], _, _, _ => isTrue trivial
  | r :: rest, k, m, prev => by
    unfold Framed
    have ih := Framed.decide L K rest
    exact inferInstance

instance (L : Layout) (K : Nat) (k : Nat) (m : Int) (prev : Option Int)
    (stream : List ReadResult) : Decidable (Framed L K k m prev stream) :=
  Framed.decide L K stream k m prev

/-- Cursors on a framed stream with `k` records of the current frame counted:
the cursor of the output decoded last is `k` descriptors past the header size,
every other one rests at the header size. -/
def Cursors (L : Layout) (k : Nat) (prev : Option Int) (offset : Nat → Nat) : Prop :=
  (∀ O, prev = some O → 0 ≤ O ∧ O < L.VM_MAX_OUTPUTS ∧
    offset O.toNat = L.sizeof_vm_header + k * L.sizeof_vm_buffer_info) ∧
  (∀ o, o < L.VM_MAX_OUTPUTS → prev ≠ some (o : Int) → offset o = L.sizeof_vm_header)

/-- At the head of the loop on a framed stream. -/
def FrameHead (L : Layout) (k : Nat) (prev : Option Int) (c : Cfg) : Prop :=
  (∀ h, c.self.hdr = some h → h.counter = c.self.last_counter) ∧
  c.self.hdr.map (fun h => h.output) = prev ∧
  c.num_buffers = k ∧ Cursors L k prev c.self.offset

/-- Before `recv_data` on a framed stream. -/
def FrameRead (L : Layout) (k : Nat) (prev : Option Int) (c : Cfg) : Prop :=
  c.self.last_counter = -1 ∧
  (∀ O, prev = some O → ∃ l, c.last_hdr = some l ∧ l.output = O) ∧
  c.num_buffers = k ∧ Cursors L k prev c.self.offset

/-- The two device paths `init` opens (lines 47 and 49). -/
inductive DevicePath where
  | dev_hyper_dmabuf
  | dev_xen_hyper_dmabuf
deriving DecidableEq, Repr

/-- The `open` calls `init` issues (lines 46-49), in order, when the first
`open` returns `open1`. -/
def init_opens (dir : HyperCommunicatorDirection) (open1 : Int) : List DevicePath :=
  if dir = HyperCommunicatorDirection.Receiver then
    if open1 < 0 then [DevicePath.dev_hyper_dmabuf, DevicePath.dev_xen_hyper_dmabuf]
    else [DevicePath.dev_hyper_dmabuf]
  else []

/-- What one call of `cleanup` did: the object it leaves, the descriptors it
passed to `close`, and how many arrays `delete[]` released (none for a null
pointer). -/
structure Cleaned where
  self : Communicator
  closed : List Int
  released : Nat

/-- `HyperDMABUFCommunicator::cleanup` (lines 74-83). -/
def cleanup (s : Communicator) : Cleaned :=
  { self := { s with
              hyper_dmabuf_fd := if 0 ≤ s.hyper_dmabuf_fd then -1 else s.hyper_dmabuf_fd
              metadata := false }
    closed := if 0 ≤ s.hyper_dmabuf_fd then [s.hyper_dmabuf_fd] else []
    released := if s.metadata then 1 else 0 }

/-- `HyperDMABUFCommunicator::send_data` (lines 111-114): the returned value and
the object after the call. -/
def send_data (s : Communicator) (_buffer : List Nat) (_len : Int) : Int × Communicator :=
  (-1, s)

/-- The values of `errno` the code tells apart. -/
inductive Errno where
  | EINTR
  | EAGAIN
  | EINVAL
  | other
deriving DecidableEq, Repr

/-- One return of `poll(&fds, 1, -1)`: the returned value, `errno` after the
call, and whether `fds.revents & (POLLERR | POLLNVAL)` is non-zero. -/
structure PollOutcome where
  ret : Int
  errno : Errno
  revents_error : Bool
deriving DecidableEq, Repr

/-- How the `do ... while` of lines 94-103 is left: towards the `read` of line
105, by the `return -1` of line 99, or not at all when the given outcomes of
`poll` are used up. The unused outcomes are kept. -/
inductive Waited where
  | to_read (rest : List PollOutcome)
  | error (rest : List PollOutcome)
  | pending
deriving DecidableEq, Repr

/-- The `do ... while` of lines 94-103 on the outcomes of the `poll` calls. -/
def poll_loop : List PollOutcome → Waited
  | [] => Waited.pending
  | p :: rest =>
    if p.ret > 0 then
      if p.revents_error then Waited.error rest else Waited.to_read rest
    else if p.ret = -1 ∧ (p.errno = Errno.EINTR ∨ p.errno = Errno.EAGAIN) then poll_loop rest
    else Waited.to_read rest

/-- Result of `recv_data`: the returned value, the lengths asked of `read` (one
entry for each `read` call), and the outcomes of `poll` not used; or still
waiting in `poll`. -/
inductive Received where
  | returned (ret : Int) (reads : List Int) (rest : List PollOutcome)
  | waiting
deriving DecidableEq, Repr

/-- `HyperDMABUFCommunicator::recv_data` (lines 85-109). `read_result` is the
value the `read` of line 105 returns when it is called. -/
def recv_data (s : Communicator) (max_len read_result : Int)
    (polls : List PollOutcome) : Received :=
  if s.direction = HyperCommunicatorDirection.Receiver then
    match poll_loop polls with
    | Waited.to_read rest => Received.returned read_result [max_len] rest
    | Waited.error rest => Received.returned (-1) [] rest
    | Waited.pending => Received.waiting
  else Received.returned (-1) [] polls

/-- A `poll` that was interrupted or would block: `-1` with `EINTR` or
`EAGAIN`. -/
def PollOutcome.transient (p : PollOutcome) : Prop :=
  p.ret = -1 ∧ (p.errno = Errno.EINTR ∨ p.errno = Errno.EAGAIN)

instance (p : PollOutcome) : Decidable p.transient := by
  unfold PollOutcome.transient; infer_instance

/-- A successful readiness notification: `poll` returned a positive value with
neither `POLLERR` nor `POLLNVAL` set. -/
def PollOutcome.ready (p : PollOutcome) : Prop :=
  0 < p.ret ∧ p.revents_error = false

instance (p : PollOutcome) : Decidable p.ready := by
  unfold PollOutcome.ready; infer_instance

/-- The outcomes of the consecutive calls of `calls`. -/
def session (L : Layout) : Nat → Communicator → (Nat → Nat → Option Cell) →
    List ReadResult → List Outcome
  | 0, _, _, _ => []
  | n + 1, s, buffer, stream =>
    recv_metadata L s buffer stream ::
      (match recv_metadata L s buffer stream with
       | Outcome.ret _ s' buffer' rest' => session L n s' buffer' rest'
       | _ => [])

/-- Cursor `offset[o]` after a call that returned. -/
def Outcome.cursor (x : Outcome) (o : Nat) : Option Nat :=
  match x with
  | Outcome.ret _ s _ _ => some (s.offset o)
  | _ => none

/-- The record `recv_metadata` holds in `hdr` after the results `pre`, starting
with `h`: the header of the last result of non-negative length. -/
def decoded_last (h : Option vm_header) : List ReadResult → Option vm_header
  | [] => h
  | r :: rest => decoded_last (if r.len < 0 then h else some r.data.hdr) rest

/-- The object as a two-record frame for output 0 with counter 1 leaves it: the
second record is still in the scratch area and has been counted. -/
def sampleAfterFrame : Communicator :=
  { sampleFresh with
    hdr := some { output := 0, counter := 1, n_buffers := 2, other := 0 }
    buf_info := some { hyper_dmabuf_id := 11, payload := 11 }
    last_counter := 1 }

theorem setAt_same {α : Type} (a : Nat → α) (i : Nat) (v : α) : setAt a i v i = v := by
  simp [setAt]

theorem setAt_other {α : Type} (a : Nat → α) (i k : Nat) (v : α) (h : k ≠ i) :
    setAt a i v k = a k := by
  simp [setAt, h]

theorem memcpy_inside (dst : Nat → Option Cell) (pos size : Nat) (src : Nat → Cell)
    (j : Nat) (h : j < size) : memcpy dst pos size src (pos + j) = some (src j) := by
  simp [memcpy, h]

theorem memcpy_below (dst : Nat → Option Cell) (pos size : Nat) (src : Nat → Cell)
    (a : Nat) (h : a < pos) : memcpy dst pos size src a = dst a := by
  have : ¬ pos ≤ a := by omega
  simp [memcpy, this]

theorem memcpy_above (dst : Nat → Option Cell) (pos size : Nat) (src : Nat → Cell)
    (a : Nat) (h : pos + size ≤ a) : memcpy dst pos size src a = dst a := by
  have : ¬ a < pos + size := by omega
  simp [memcpy, this]

theorem init_fresh (L : Layout) (s : Communicator) (dir : HyperCommunicatorDirection)
    (open1 open2 : Int) (h : (init L s dir open1 open2).1 = 0) :
    Fresh L (init L s dir open1 open2).2 := by
  unfold init at h ⊢
  by_cases hd : dir = HyperCommunicatorDirection.Receiver
  · by_cases h1 : open1 < 0 <;> by_cases h2 : open2 < 0 <;>
      simp [hd, h1, h2, Fresh] at h ⊢ <;> intro i hi <;> simp [hi]
  · simp [hd] at h

theorem loop_top_none (L : Layout) (c : Cfg) (h : c.self.hdr = none) :
    loop_top L c = Except.ok { c with self := { c.self with last_counter := -1 } } := by
  simp [loop_top, h]

theorem loop_top_folded (L : Layout) (c : Cfg) (h : vm_header)
    (hh : c.self.hdr = some h) (hc : h.counter = c.self.last_counter) :
    loop_top L c =
      Except.ok { c with last_hdr := some h, self := { c.self with last_counter := -1 } } := by
  simp [loop_top, hh, hc]

theorem after_read_append (L : Layout) (c : Cfg) (r : ReadResult) (hlen : 0 ≤ r.len)
    (h0 : 0 ≤ r.data.hdr.output) (h1 : r.data.hdr.output < L.VM_MAX_OUTPUTS)
    (hlc : c.self.last_counter = -1) :
    after_read L c r =
      if ((c.num_buffers + 1 : Nat) : Int) = r.data.hdr.n_buffers
      then Step.emit (append_record L c r) else Step.next (append_record L c r) := by
  have hl : ¬ r.len < 0 := by omega
  simp [after_read, fold, append_record, hl, h0, h1, hlc]

theorem recv_loop_emit (L : Layout) (c c1 c2 : Cfg) (r : ReadResult)
    (rest : List ReadResult) (htop : loop_top L c = Except.ok c1)
    (hafter : after_read L c1 r = Step.emit c2) :
    recv_loop L c (r :: rest) = Stop.emit c2 rest := by
  simp only [recv_loop, htop, hafter]

theorem recv_loop_next (L : Layout) (c c1 c2 : Cfg) (r : ReadResult)
    (rest : List ReadResult) (htop : loop_top L c = Except.ok c1)
    (hafter : after_read L c1 r = Step.next c2) :
    recv_loop L c (r :: rest) = recv_loop L c2 rest := by
  rw [recv_loop, htop]; simp only [hafter]

/-- The loop on a frame in progress: `hp` is the record decoded last, already
appended, and `recs` are the records still missing to reach the declared
count. -/
theorem frame_loop (L : Layout) (O cc : Int) (N : Nat)
    (h0 : 0 ≤ O) (h1 : O < L.VM_MAX_OUTPUTS) :
    ∀ (recs : List ReadResult) (c : Cfg) (hp : vm_header),
      recs ≠ [] →
      (∀ r ∈ recs, 0 ≤ r.len ∧ r.data.hdr.output = O ∧ r.data.hdr.counter = cc ∧
        r.data.hdr.n_buffers = N) →
      c.self.hdr = some hp → hp.counter = c.self.last_counter →
      hp.output = O → hp.counter = cc →
      c.num_buffers + recs.length = N →
      ∃ c', recv_loop L c recs = Stop.emit c' [] ∧ c'.num_buffers = N ∧
        (∃ l, c'.last_hdr = some l ∧ l.output = O ∧ l.counter = cc) ∧
        (∀ a, a < c.self.offset O.toNat → c'.buffer O.toNat a = c.buffer O.toNat a) ∧
        (∀ i r, recs[i]? = some r → ∀ j, j < L.sizeof_vm_buffer_info →
          c'.buffer O.toNat (c.self.offset O.toNat + i * L.sizeof_vm_buffer_info + j)
            = some (Cell.info (stamp r.data) j)) := by
  intro recs
  induction recs with
  | nil => intro c hp hne; exact absurd rfl hne
  | cons r rest ih =>
    intro c hp _ hall hh hc hpo hpc hnum
    obtain ⟨hlen, hro, hrc, hrn⟩ := hall r (List.mem_cons_self _ _)
    have hall' : ∀ x ∈ rest, 0 ≤ x.len ∧ x.data.hdr.output = O ∧ x.data.hdr.counter = cc ∧
        x.data.hdr.n_buffers = N := fun x hx => hall x (List.mem_cons_of_mem _ hx)
    have htop := loop_top_folded L c hp hh hc
    have hafter := after_read_append L
      { c with last_hdr := some hp, self := { c.self with last_counter := -1 } } r hlen
      (by rw [hro]; exact h0) (by rw [hro]; exact h1) rfl
    simp only [List.length_cons] at hnum
    cases rest with
    | nil =>
      have hN : ((c.num_buffers + 1 : Nat) : Int) = r.data.hdr.n_buffers := by
        rw [hrn]; simp only [List.length_nil] at hnum; exact_mod_cast hnum
      rw [if_pos hN] at hafter
      refine ⟨_, recv_loop_emit L _ _ _ _ _ htop hafter, ?_, ⟨hp, rfl, hpo, hpc⟩, ?_, ?_⟩
      · simp only [List.length_nil] at hnum; simpa [append_record] using hnum
      · intro a ha
        simp only [append_record, hro, setAt_same]
        exact memcpy_below _ _ _ _ _ ha
      · intro i x hx j hj
        cases i with
        | zero =>
          simp only [List.getElem?_cons_zero, Option.some.injEq] at hx
          subst hx
          simp only [append_record, hro, setAt_same, Nat.zero_mul, Nat.add_zero]
          exact memcpy_inside _ _ _ _ _ hj
        | succ k => simp at hx
    | cons r2 rest2 =>
      have hN : ¬ ((c.num_buffers + 1 : Nat) : Int) = r.data.hdr.n_buffers := by
        rw [hrn]; simp only [List.length_cons] at hnum; intro hcon
        have : c.num_buffers + 1 = N := by exact_mod_cast hcon
        omega
      rw [if_neg hN] at hafter
      obtain ⟨c', hrun, hcn, hl, hlow, hrecs⟩ := ih
        (append_record L
          { c with last_hdr := some hp, self := { c.self with last_counter := -1 } } r)
        r.data.hdr (by simp) hall' rfl rfl hro hrc
        (by simp only [append_record, List.length_cons] at hnum ⊢; omega)
      refine ⟨c', ?_, hcn, hl, ?_, ?_⟩
      · rw [recv_loop_next L _ _ _ _ _ htop hafter]; exact hrun
      · intro a ha
        rw [hlow a (by simp only [append_record, hro, setAt_same]; omega)]
        simp only [append_record, hro, setAt_same]
        exact memcpy_below _ _ _ _ _ ha
      · intro i x hx j hj
        cases i with
        | zero =>
          simp only [List.getElem?_cons_zero, Option.some.injEq] at hx
          subst hx
          rw [hlow _ (by simp only [append_record, hro, setAt_same]; omega)]
          simp only [append_record, hro, setAt_same, Nat.zero_mul, Nat.add_zero]
          exact memcpy_inside _ _ _ _ _ hj
        | succ k =>
          simp only [List.getElem?_cons_succ] at hx
          have := hrecs k x hx j hj
          simp only [append_record, hro, setAt_same] at this
          rw [← this]
          congr 1
          rw [Nat.succ_mul]
          omega

/-- First pass of the loop on a fresh object: the record is decoded and
appended, and the pass ends at line 188 exactly when one buffer is declared. -/
theorem first_pass (L : Layout) (s : Communicator) (buffer : Nat → Nat → Option Cell)
    (r : ReadResult) (hs : s.hdr = none) (hlen : 0 ≤ r.len)
    (h0 : 0 ≤ r.data.hdr.output) (h1 : r.data.hdr.output < L.VM_MAX_OUTPUTS) :
    ∃ c1, loop_top L (enter s buffer) = Except.ok c1 ∧ c1.last_hdr = none ∧
      c1.num_buffers = 0 ∧ c1.self.offset = s.offset ∧ c1.buffer = buffer ∧
      after_read L c1 r =
        if (1 : Int) = r.data.hdr.n_buffers then Step.emit (append_record L c1 r)
        else Step.next (append_record L c1 r) := by
  refine ⟨_, loop_top_none L (enter s buffer) hs, rfl, rfl, rfl, rfl, ?_⟩
  have := after_read_append L
    { enter s buffer with self := { (enter s buffer).self with last_counter := -1 } } r hlen h0 h1 rfl
  simpa [enter] using this

/-- What a returning emission did. -/
theorem emit_ret (L : Layout) (c : Cfg) (rest : List ReadResult) (v : Int)
    (self' : Communicator) (buffer' : Nat → Nat → Option Cell) (rest' : List ReadResult)
    (h : emit L c rest = Outcome.ret v self' buffer' rest') :
    ∃ l, c.last_hdr = some l ∧ v = l.output ∧ 0 ≤ v ∧ v < L.VM_MAX_OUTPUTS ∧
      self' = { c.self with offset := setAt c.self.offset v.toNat L.sizeof_vm_header } ∧
      buffer' = setAt c.buffer v.toNat
        (memcpy (c.buffer v.toNat) 0 L.sizeof_vm_header
          (Cell.hdr { l with n_buffers := (c.num_buffers : Int) })) ∧
      rest' = rest := by
  unfold emit at h
  split at h
  · exact Outcome.noConfusion h
  · rename_i l hl
    dsimp only at h
    split at h
    · rename_i hr
      injection h with hv hs hb hrest
      subst hv hs hb hrest
      exact ⟨l, hl, rfl, hr.1, hr.2, rfl, rfl, rfl⟩
    · exact Outcome.noConfusion h

/-- Invariants carried through the loop: `P` at the head of the body, `Q` before
`recv_data`, `E` at line 188, for streams of records satisfying `S`. -/
theorem recv_loop_invariant (L : Layout) (S : ReadResult → Prop) (P Q E : Cfg → Prop)
    (htop : ∀ c, P c → ∃ c1, loop_top L c = Except.ok c1 ∧ Q c1)
    (hafter : ∀ c r, Q c → S r →
      (∃ c2, after_read L c r = Step.next c2 ∧ P c2) ∨
      (∃ c2, after_read L c r = Step.emit c2 ∧ E c2)) :
    ∀ (stream : List ReadResult) (c : Cfg), (∀ r ∈ stream, S r) → P c →
      (∃ c', recv_loop L c stream = Stop.blocked c' ∧ Q c') ∨
      (∃ c' rest, recv_loop L c stream = Stop.emit c' rest ∧ E c' ∧ ∀ r ∈ rest, S r) := by
  intro stream
  induction stream with
  | nil =>
    intro c _ hP
    obtain ⟨c1, h1, hQ⟩ := htop c hP
    exact Or.inl ⟨c1, by simp only [recv_loop, h1], hQ⟩
  | cons r rest ih =>
    intro c hS hP
    obtain ⟨c1, h1, hQ⟩ := htop c hP
    have hrest : ∀ x ∈ rest, S x := fun x hx => hS x (List.mem_cons_of_mem _ hx)
    rcases hafter c1 r hQ (hS r (List.mem_cons_self _ _)) with ⟨c2, h2, hP2⟩ | ⟨c2, h2, hE⟩
    · rw [recv_loop_next L _ _ _ _ _ h1 h2]
      exact ih c2 hrest hP2
    · exact Or.inr ⟨c2, rest, recv_loop_emit L _ _ _ _ _ h1 h2, hE, hrest⟩

/-- The invariants of `recv_loop_invariant` carried over consecutive calls, with
`I` holding of the object between calls. -/
theorem calls_invariant (L : Layout) (S : ReadResult → Prop) (P Q E : Cfg → Prop)
    (I : Communicator → Prop)
    (htop : ∀ c, P c → ∃ c1, loop_top L c = Except.ok c1 ∧ Q c1)
    (hafter : ∀ c r, Q c → S r →
      (∃ c2, after_read L c r = Step.next c2 ∧ P c2) ∨
      (∃ c2, after_read L c r = Step.emit c2 ∧ E c2))
    (henter : ∀ s buffer, I s → P (enter s buffer))
    (hemit : ∀ c rest v s' buffer' rest', E c →
      emit L c rest = Outcome.ret v s' buffer' rest' → I s') :
    ∀ (n : Nat) (s : Communicator) (buffer : Nat → Nat → Option Cell)
      (stream : List ReadResult), I s → (∀ r ∈ stream, S r) →
      ∀ x ∈ calls L n s buffer stream,
        (∃ c, x = Stop.blocked c ∧ Q c) ∨ (∃ c rest, x = Stop.emit c rest ∧ E c) := by
  intro n
  induction n with
  | zero => intro s buffer stream _ _ x hx; simp [calls] at hx
  | succ n ih =>
    intro s buffer stream hI hS x hx
    rcases recv_loop_invariant L S P Q E htop hafter stream (enter s buffer) hS
        (henter s buffer hI) with ⟨c', hrun, hQ⟩ | ⟨c', rest, hrun, hE, hrest⟩
    · simp only [calls, hrun, List.mem_singleton] at hx
      exact Or.inl ⟨c', hx, hQ⟩
    · simp only [calls, hrun, List.mem_cons] at hx
      rcases hx with hx | hx
      · exact Or.inr ⟨c', rest, hx, hE⟩
      · cases hem : emit L c' rest with
        | ret v s' buffer' rest' =>
          rw [hem] at hx
          obtain ⟨-, -, -, -, -, -, -, hr⟩ := emit_ret L _ _ _ _ _ _ hem
          subst hr
          exact ih s' buffer' rest' (hemit c' rest' v s' buffer' rest' hE hem) hrest x hx
        | blocked c => rw [hem] at hx; simp at hx
        | fault f => rw [hem] at hx; simp at hx

theorem single_top (L : Layout) (O : Int) (c : Cfg) (h : AtHead L O c) :
    ∃ c1, loop_top L c = Except.ok c1 ∧ BeforeRead L O c1 ∧
      c1.num_buffers = c.num_buffers ∧ c1.self.offset = c.self.offset := by
  obtain ⟨hh, hcur, hlast⟩ := h
  cases hd : c.self.hdr with
  | none => exact ⟨_, loop_top_none L c hd, ⟨rfl, hcur, hlast⟩, rfl, rfl⟩
  | some h =>
    obtain ⟨hc, ho⟩ := hh h hd
    refine ⟨_, loop_top_folded L c h hd hc, ⟨rfl, hcur, ?_⟩, rfl, rfl⟩
    intro l hl
    simp only [Option.some.injEq] at hl
    rw [← hl]; exact ho

theorem single_after (L : Layout) (O : Int) (c : Cfg) (r : ReadResult)
    (h0 : 0 ≤ O) (h1 : O < L.VM_MAX_OUTPUTS) (hQ : BeforeRead L O c)
    (hlen : 0 ≤ r.len) (hro : r.data.hdr.output = O) :
    after_read L c r =
      (if ((c.num_buffers + 1 : Nat) : Int) = r.data.hdr.n_buffers
       then Step.emit (append_record L c r) else Step.next (append_record L c r)) ∧
    AtHead L O (append_record L c r) ∧
    (append_record L c r).num_buffers = c.num_buffers + 1 ∧
    ∀ o, o ≠ O.toNat → (append_record L c r).self.offset o = c.self.offset o := by
  obtain ⟨hlc, hcur, hlast⟩ := hQ
  refine ⟨after_read_append L c r hlen (by rw [hro]; exact h0) (by rw [hro]; exact h1) hlc,
    ⟨?_, ?_, hlast⟩, rfl, ?_⟩
  · intro h hh
    simp only [append_record, Option.some.injEq] at hh
    subst hh
    exact ⟨rfl, hro⟩
  · simp only [append_record, hro, setAt_same, hcur, Nat.succ_mul]
    omega
  · intro o ho
    simp only [append_record, hro]
    exact setAt_other _ _ _ _ ho

theorem fresh_between (L : Layout) (O : Int) (s : Communicator) (hs : Fresh L s)
    (h0 : 0 ≤ O) (h1 : O < L.VM_MAX_OUTPUTS) : BetweenCalls L O s := by
  refine ⟨?_, hs.2.2.2 _ (by omega)⟩
  intro h hh
  rw [hs.1] at hh
  exact Option.noConfusion hh

theorem enter_at_head (L : Layout) (O : Int) (s : Communicator)
    (buffer : Nat → Nat → Option Cell) (h : BetweenCalls L O s) :
    AtHead L O (enter s buffer) := by
  refine ⟨h.1, ?_, ?_⟩
  · simp only [enter, Nat.zero_mul, Nat.add_zero]; exact h.2
  · intro l hl; simp [enter] at hl

theorem emit_between (L : Layout) (O : Int) (c : Cfg) (rest : List ReadResult) (v : Int)
    (s' : Communicator) (buffer' : Nat → Nat → Option Cell) (rest' : List ReadResult)
    (hE : AtHead L O c) (h : emit L c rest = Outcome.ret v s' buffer' rest') :
    v = O ∧ BetweenCalls L O s' ∧
      ∀ o, o ≠ O.toNat → s'.offset o = c.self.offset o := by
  obtain ⟨l, hl, hv, -, -, hs, -, -⟩ := emit_ret L _ _ _ _ _ _ h
  have hvO : v = O := by rw [hv]; exact hE.2.2 l hl
  subst hvO
  refine ⟨rfl, ⟨?_, ?_⟩, ?_⟩
  · rw [hs]; exact hE.1
  · rw [hs]; exact setAt_same _ _ _
  · intro o ho
    rw [hs]; exact setAt_other _ _ _ _ ho

/-- Single-output streams: every call stops at line 188 or blocked with the
cursor of `O` at header size plus one descriptor per counted buffer. -/
theorem single_output_calls (L : Layout) (O : Int) (h0 : 0 ≤ O)
    (h1 : O < L.VM_MAX_OUTPUTS) (n : Nat) (s : Communicator)
    (buffer : Nat → Nat → Option Cell) (stream : List ReadResult)
    (hs : BetweenCalls L O s)
    (hrecs : ∀ r ∈ stream, 0 ≤ r.len ∧ r.data.hdr.output = O) :
    ∀ x ∈ calls L n s buffer stream,
      (∃ c, x = Stop.blocked c ∧ BeforeRead L O c) ∨
      (∃ c rest, x = Stop.emit c rest ∧ AtHead L O c) := by
  apply calls_invariant L (fun r => 0 ≤ r.len ∧ r.data.hdr.output = O) (AtHead L O)
    (BeforeRead L O) (AtHead L O) (BetweenCalls L O)
  · intro c hP
    obtain ⟨c1, ht, hQ, -, -⟩ := single_top L O c hP
    exact ⟨c1, ht, hQ⟩
  · intro c r hQ hS
    obtain ⟨ha, hP, -, -⟩ := single_after L O c r h0 h1 hQ hS.1 hS.2
    by_cases hn : ((c.num_buffers + 1 : Nat) : Int) = r.data.hdr.n_buffers
    · rw [if_pos hn] at ha; exact Or.inr ⟨_, ha, hP⟩
    · rw [if_neg hn] at ha; exact Or.inl ⟨_, ha, hP⟩
  · intro s buffer hI
    exact enter_at_head L O s buffer hI
  · intro c rest v s' buffer' rest' hE hem
    exact (emit_between L O c rest v s' buffer' rest' hE hem).2.1
  · exact hs
  · exact hrecs

theorem cursors_bound (L : Layout) (K k : Nat) (prev : Option Int) (offset : Nat → Nat)
    (h : Cursors L k prev offset) (hk : k ≤ K) :
    ∀ o, o < L.VM_MAX_OUTPUTS →
      offset o ≤ L.sizeof_vm_header + K * L.sizeof_vm_buffer_info := by
  intro o ho
  by_cases hp : prev = some (o : Int)
  · obtain ⟨-, -, hcur⟩ := h.1 _ hp
    rw [Int.toNat_ofNat] at hcur
    rw [hcur]
    exact Nat.add_le_add_left (Nat.mul_le_mul_right _ hk) _
  · rw [h.2 o ho hp]; exact Nat.le_add_right _ _

theorem frame_top (L : Layout) (k : Nat) (prev : Option Int) (c : Cfg)
    (h : FrameHead L k prev c) :
    ∃ c1, loop_top L c = Except.ok c1 ∧ FrameRead L k prev c1 := by
  obtain ⟨hh, hprev, hnum, hcur⟩ := h
  cases hd : c.self.hdr with
  | none =>
    refine ⟨_, loop_top_none L c hd, rfl, ?_, hnum, hcur⟩
    intro O hO
    rw [hd] at hprev
    rw [← hprev] at hO
    exact Option.noConfusion hO
  | some h =>
    refine ⟨_, loop_top_folded L c h hd (hh h hd), rfl, ?_, hnum, hcur⟩
    intro O hO
    rw [hd] at hprev
    rw [← hprev] at hO
    simp only [Option.map_some', Option.some.injEq] at hO
    exact ⟨h, rfl, hO⟩

theorem frame_after (L : Layout) (k : Nat) (prev : Option Int) (c : Cfg) (r : ReadResult)
    (hQ : FrameRead L k prev c) (hlen : 0 ≤ r.len) (h0 : 0 ≤ r.data.hdr.output)
    (h1 : r.data.hdr.output < L.VM_MAX_OUTPUTS)
    (hk : k = 0 ∨ prev = some r.data.hdr.output) :
    after_read L c r =
      (if ((k + 1 : Nat) : Int) = r.data.hdr.n_buffers
       then Step.emit (append_record L c r) else Step.next (append_record L c r)) ∧
    FrameHead L (k + 1) (some r.data.hdr.output) (append_record L c r) ∧
    (append_record L c r).last_hdr = c.last_hdr := by
  obtain ⟨hlc, -, hnum, hcur⟩ := hQ
  have hcast : ((r.data.hdr.output.toNat : Nat) : Int) = r.data.hdr.output :=
    Int.toNat_of_nonneg h0
  have hold : c.self.offset r.data.hdr.output.toNat
      = L.sizeof_vm_header + k * L.sizeof_vm_buffer_info := by
    by_cases hp : prev = some r.data.hdr.output
    · exact (hcur.1 _ hp).2.2
    · have hk0 : k = 0 := by
        rcases hk with hk | hk
        · exact hk
        · exact absurd hk hp
      rw [hcur.2 _ (by omega) (by rw [hcast]; exact hp), hk0]
      simp
  refine ⟨?_, ⟨?_, rfl, ?_, ?_, ?_⟩, rfl⟩
  · have := after_read_append L c r hlen h0 h1 hlc
    rw [hnum] at this
    exact this
  · intro h hh
    simp only [append_record, Option.some.injEq] at hh
    subst hh
    rfl
  · simp only [append_record, hnum]
  · intro O hO
    simp only [Option.some.injEq] at hO
    subst hO
    refine ⟨h0, h1, ?_⟩
    simp only [append_record, setAt_same, hold, Nat.succ_mul]
    omega
  · intro o ho hne
    have hoO : o ≠ r.data.hdr.output.toNat := by
      intro h; apply hne; rw [h, hcast]
    simp only [append_record]
    rw [setAt_other _ _ _ _ hoO]
    by_cases hp : prev = some (o : Int)
    · have hk0 : k = 0 := by
        rcases hk with hk | hk
        · exact hk
        · rw [hk] at hp; exact absurd hp hne
      obtain ⟨-, -, hc⟩ := hcur.1 _ hp
      rw [Int.toNat_ofNat, hk0] at hc
      rw [hc]; simp
    · exact hcur.2 o ho hp

/-- The loop on a framed stream stops blocked or at line 188 with at most `K`
buffers counted, at the end of a frame, with `last_hdr` targeting the output of
that frame. -/
theorem framed_loop (L : Layout) (K : Nat) :
    ∀ (stream : List ReadResult) (c : Cfg) (k : Nat) (m : Int) (prev : Option Int),
      Framed L K k m prev stream → FrameHead L k prev c →
      (k = 0 ∨ ((k : Int) < m ∧ m ≤ (K : Int))) →
      (∃ c' k' prev', recv_loop L c stream = Stop.blocked c' ∧ FrameRead L k' prev' c' ∧
        k' ≤ K) ∨
      (∃ c' rest k' O m', recv_loop L c stream = Stop.emit c' rest ∧
        FrameHead L k' (some O) c' ∧ k' ≤ K ∧ (∃ l, c'.last_hdr = some l ∧ l.output = O) ∧
        Framed L K 0 m' (some O) rest) := by
  intro stream
  induction stream with
  | nil =>
    intro c k m prev _ hP hk
    obtain ⟨c1, h1, hQ⟩ := frame_top L k prev c hP
    exact Or.inl ⟨c1, k, prev, by simp only [recv_loop, h1], hQ, by omega⟩
  | cons r rest ih =>
    intro c k m prev hF hP hk
    obtain ⟨c1, htop, hQ⟩ := frame_top L k prev c hP
    unfold Framed at hF
    obtain ⟨hlen, h0, h1, hF⟩ := hF
    have hl : 0 ≤ r.len := by rw [hlen]; exact Int.natCast_nonneg _
    by_cases hk0 : k = 0
    · rw [if_pos hk0] at hF
      obtain ⟨hn1, hnK, hprev, hF⟩ := hF
      obtain ⟨ha, hP', hlast⟩ := frame_after L k prev c1 r hQ hl h0 h1 (Or.inl hk0)
      subst hk0
      by_cases hn : r.data.hdr.n_buffers = 1
      · rw [if_pos hn] at hF
        rw [if_pos (by rw [hn]; rfl)] at ha
        obtain ⟨l, hl1, hl2⟩ := hQ.2.1 _ (hprev hn)
        exact Or.inr ⟨_, rest, 1, _, _, recv_loop_emit L _ _ _ _ _ htop ha, hP', by omega,
          ⟨l, by rw [hlast]; exact hl1, hl2⟩, hF⟩
      · rw [if_neg hn] at hF
        rw [if_neg (by intro h; apply hn; rw [← h]; rfl)] at ha
        rw [recv_loop_next L _ _ _ _ _ htop ha]
        exact ih _ 1 _ _ hF hP' (Or.inr ⟨by simp only [Nat.cast_one]; omega, hnK⟩)
    · rw [if_neg hk0] at hF
      obtain ⟨hnm, hprev, hF⟩ := hF
      have hkm : (k : Int) < m ∧ m ≤ (K : Int) := by
        rcases hk with hk | hk
        · exact absurd hk hk0
        · exact hk
      obtain ⟨ha, hP', hlast⟩ := frame_after L k prev c1 r hQ hl h0 h1 (Or.inr hprev)
      by_cases he : ((k + 1 : Nat) : Int) = m
      · rw [if_pos he] at hF
        rw [if_pos (by rw [hnm]; exact he)] at ha
        obtain ⟨l, hl1, hl2⟩ := hQ.2.1 _ hprev
        exact Or.inr ⟨_, rest, k + 1, _, _, recv_loop_emit L _ _ _ _ _ htop ha, hP',
          by omega, ⟨l, by rw [hlast]; exact hl1, hl2⟩, hF⟩
      · rw [if_neg he] at hF
        rw [if_neg (by rw [hnm]; exact he)] at ha
        rw [recv_loop_next L _ _ _ _ _ htop ha]
        exact ih _ (k + 1) _ _ hF hP' (Or.inr ⟨by omega, hkm.2⟩)

/-- Consecutive calls on a framed stream: every call stops blocked or at the end
of a frame, with at most `K` buffers counted and the cursors as in `Cursors`. -/
theorem framed_calls (L : Layout) (K : Nat) :
    ∀ (n : Nat) (s : Communicator) (buffer : Nat → Nat → Option Cell)
      (stream : List ReadResult) (m : Int) (prev : Option Int),
      Framed L K 0 m prev stream → FrameHead L 0 prev (enter s buffer) →
      ∀ x ∈ calls L n s buffer stream,
        (∃ c k prev', x = Stop.blocked c ∧ FrameRead L k prev' c ∧ k ≤ K) ∨
        (∃ c rest k O, x = Stop.emit c rest ∧ FrameHead L k (some O) c ∧ k ≤ K ∧
          ∃ l, c.last_hdr = some l ∧ l.output = O) := by
  intro n
  induction n with
  | zero => intro s buffer stream m prev _ _ x hx; simp [calls] at hx
  | succ n ih =>
    intro s buffer stream m prev hF hP x hx
    rcases framed_loop L K stream (enter s buffer) 0 m prev hF hP (Or.inl rfl) with
      ⟨c', k', prev', hrun, hQ, hk⟩ | ⟨c', rest, k', O, m', hrun, hH, hk, ⟨l, hl, hlo⟩, hF'⟩
    · simp only [calls, hrun, List.mem_singleton] at hx
      exact Or.inl ⟨c', k', prev', hx, hQ, hk⟩
    · simp only [calls, hrun, List.mem_cons] at hx
      rcases hx with hx | hx
      · exact Or.inr ⟨c', rest, k', O, hx, hH, hk, l, hl, hlo⟩
      · cases hem : emit L c' rest with
        | ret v s' buffer' rest' =>
          rw [hem] at hx
          obtain ⟨l', hl', hv, hv0, hv1, hs', -, hr⟩ := emit_ret L _ _ _ _ _ _ hem
          rw [hl] at hl'
          simp only [Option.some.injEq] at hl'
          subst hl' hr
          rw [hlo] at hv
          subst hv
          refine ih s' buffer' rest' m' (some v) hF' ⟨?_, ?_, rfl, ?_, ?_⟩ x hx
          · rw [hs']; exact hH.1
          · rw [hs']; exact hH.2.1
          · intro O hO
            simp only [Option.some.injEq] at hO
            subst hO
            refine ⟨hv0, hv1, ?_⟩
            rw [hs']
            simp only [enter, setAt_same, Nat.zero_mul, Nat.add_zero]
          · intro o ho hne
            have hoO : o ≠ v.toNat := by
              intro h; apply hne; rw [h, Int.toNat_of_nonneg hv0]
            rw [hs']
            simp only [enter]
            rw [setAt_other _ _ _ _ hoO]
            exact hH.2.2.2.2 o ho hne
        | blocked c => rw [hem] at hx; simp at hx
        | fault f => rw [hem] at hx; simp at hx

theorem fresh_frame_head (L : Layout) (s : Communicator)
    (buffer : Nat → Nat → Option Cell) (hs : Fresh L s) :
    FrameHead L 0 none (enter s buffer) := by
  refine ⟨?_, ?_, rfl, ?_, ?_⟩
  · intro h hh
    simp only [enter] at hh
    rw [hs.1] at hh
    exact Option.noConfusion hh
  · simp only [enter, hs.1, Option.map_none']
  · intro O hO; exact Option.noConfusion hO
  · intro o ho _
    exact hs.2.2.2 o ho

/-- The header the emission writes. -/
theorem emitted_header (L : Layout) (c : Cfg) (rest : List ReadResult) (v : Int)
    (s' : Communicator) (buffer' : Nat → Nat → Option Cell) (rest' : List ReadResult)
    (h : emit L c rest = Outcome.ret v s' buffer' rest') :
    ∃ l, c.last_hdr = some l ∧ v = l.output ∧
      ∀ j, j < L.sizeof_vm_header →
        buffer' v.toNat j
          = some (Cell.hdr { l with n_buffers := (c.num_buffers : Int) } j) := by
  obtain ⟨l, hl, hv, -, -, -, hb, -⟩ := emit_ret L _ _ _ _ _ _ h
  refine ⟨l, hl, hv, ?_⟩
  intro j hj
  rw [hb, setAt_same]
  have := memcpy_inside (c.buffer v.toNat) 0 L.sizeof_vm_header
    (Cell.hdr { l with n_buffers := (c.num_buffers : Int) }) j hj
  simpa using this

theorem after_read_failed (L : Layout) (c : Cfg) (r : ReadResult) (h : r.len < 0) :
    after_read L c r = Step.next c := by
  simp [after_read, h]

/-- A stream of failed reads never brings the loop to line 188. -/
theorem recv_loop_failed (L : Layout) :
    ∀ (fails : List ReadResult) (c : Cfg), (∀ r ∈ fails, r.len < 0) →
      ∀ c' rest, recv_loop L c fails ≠ Stop.emit c' rest := by
  intro fails
  induction fails with
  | nil =>
    intro c _ c' rest h
    unfold recv_loop at h
    split at h <;> exact Stop.noConfusion h
  | cons r fs ih =>
    intro c hf c' rest h
    cases ht : loop_top L c with
    | error f => simp only [recv_loop, ht] at h; exact Stop.noConfusion h
    | ok c1 =>
      rw [recv_loop_next L c c1 c1 r fs ht
        (after_read_failed L c1 r (hf r (List.mem_cons_self _ _)))] at h
      exact ih c1 (fun x hx => hf x (List.mem_cons_of_mem _ hx)) c' rest h

/-- While no record has been decoded, running the head of the loop once more
changes nothing. -/
theorem recv_loop_after_idle_top (L : Layout) (c : Cfg) (stream : List ReadResult)
    (h : c.self.hdr = none) :
    recv_loop L { c with self := { c.self with last_counter := -1 } } stream
      = recv_loop L c stream := by
  have h1 := loop_top_none L c h
  have h2 := loop_top_none L { c with self := { c.self with last_counter := -1 } } h
  cases stream with
  | nil => simp only [recv_loop, h1, h2]
  | cons r rest => simp only [recv_loop, h1, h2]

/-- While no record has been decoded, failed reads at the start of the stream
are passed over. -/
theorem recv_loop_skips_failed (L : Layout) (rest : List ReadResult) :
    ∀ (fails : List ReadResult) (c : Cfg), (∀ r ∈ fails, r.len < 0) →
      c.self.hdr = none → recv_loop L c (fails ++ rest) = recv_loop L c rest := by
  intro fails
  induction fails with
  | nil => intro c _ _; rfl
  | cons r fs ih =>
    intro c hf hc
    rw [List.cons_append, recv_loop_next L c _ _ r (fs ++ rest) (loop_top_none L c hc)
      (after_read_failed L _ r (hf r (List.mem_cons_self _ _)))]
    exact (ih { c with self := { c.self with last_counter := -1 } }
      (fun x hx => hf x (List.mem_cons_of_mem _ hx)) hc).trans
      (recv_loop_after_idle_top L c rest hc)

theorem poll_loop_transient (rest : List PollOutcome) :
    ∀ (retries : List PollOutcome), (∀ p ∈ retries, p.transient) →
      poll_loop (retries ++ rest) = poll_loop rest := by
  intro retries
  induction retries with
  | nil => intro _; rfl
  | cons p ps ih =>
    intro h
    obtain ⟨hret, herr⟩ := h p (List.mem_cons_self _ _)
    have hpos : ¬ p.ret > 0 := by rw [hret]; decide
    rw [List.cons_append, poll_loop, if_neg hpos, if_pos ⟨hret, herr⟩]
    exact ih (fun q hq => h q (List.mem_cons_of_mem _ hq))

theorem fold_keeps (L : Layout) (c c' : Cfg) (h : vm_header) (b : vm_buffer_info)
    (hf : fold L c h b = Except.ok c') :
    c'.self.hdr = c.self.hdr ∧ c'.last_hdr = c.last_hdr := by
  unfold fold at hf
  split at hf
  · injection hf with hf; subst hf; exact ⟨rfl, rfl⟩
  · exact Except.noConfusion hf

/-- The head of the loop leaves `hdr` alone and leaves in `last_hdr` the record
`hdr` views, if there is one. -/
theorem loop_top_keeps (L : Layout) (c c1 : Cfg) (h : loop_top L c = Except.ok c1)
    (hinv : c.self.hdr = none → c.last_hdr = none) :
    c1.self.hdr = c.self.hdr ∧ c1.last_hdr = c.self.hdr := by
  cases hd : c.self.hdr with
  | none =>
    rw [loop_top_none L c hd] at h
    injection h with h; subst h
    exact ⟨hd, hinv hd⟩
  | some hp =>
    unfold loop_top at h
    rw [hd] at h
    dsimp only at h
    split at h
    · split at h
      · obtain ⟨k1, k2⟩ := fold_keeps L _ _ _ _ h
        exact ⟨k1.trans hd, k2⟩
      · exact Except.noConfusion h
    · injection h with h; subst h
      exact ⟨hd, rfl⟩

/-- The rest of the loop body leaves `last_hdr` alone; `hdr` views the record
read, unless the read failed. -/
theorem after_read_keeps (L : Layout) (c : Cfg) (r : ReadResult) :
    (∀ c2, after_read L c r = Step.next c2 →
      c2.last_hdr = c.last_hdr ∧
      c2.self.hdr = (if r.len < 0 then c.self.hdr else some r.data.hdr)) ∧
    (∀ c2, after_read L c r = Step.emit c2 →
      0 ≤ r.len ∧ c2.last_hdr = c.last_hdr ∧ c2.self.hdr = some r.data.hdr) := by
  by_cases hl : r.len < 0
  · rw [after_read_failed L c r hl]
    refine ⟨?_, ?_⟩
    · intro c2 h; injection h with h; subst h; simp [hl]
    · intro c2 h; exact Step.noConfusion h
  · have key : ∀ (x : Except Fault Cfg),
        (∀ c', x = Except.ok c' → c'.last_hdr = c.last_hdr ∧ c'.self.hdr = some r.data.hdr) →
        ∀ (st : Step), (match x with
          | Except.error f => Step.fault f
          | Except.ok c2 =>
            if r.data.hdr.counter ≠ c2.self.last_counter ∨
                (c2.num_buffers : Int) = r.data.hdr.n_buffers
            then Step.emit c2 else Step.next c2) = st →
        ∀ c2, (st = Step.next c2 ∨ st = Step.emit c2) →
          c2.last_hdr = c.last_hdr ∧ c2.self.hdr = some r.data.hdr := by
      intro x hx st hst c2 hc2
      cases x with
      | error f => rw [← hst] at hc2; rcases hc2 with h | h <;> exact Step.noConfusion h
      | ok c3 =>
        rw [← hst] at hc2
        dsimp only at hc2
        split at hc2
        · rcases hc2 with h | h
          · exact Step.noConfusion h
          · injection h with h; subst h; exact hx _ rfl
        · rcases hc2 with h | h
          · injection h with h; subst h; exact hx _ rfl
          · exact Step.noConfusion h
    have hcases : ∀ c2, (after_read L c r = Step.next c2 ∨ after_read L c r = Step.emit c2) →
        c2.last_hdr = c.last_hdr ∧ c2.self.hdr = some r.data.hdr := by
      intro c2 hc2
      unfold after_read at hc2
      rw [if_neg hl] at hc2
      dsimp only at hc2
      split at hc2
      · refine key _ ?_ _ rfl c2 hc2
        intro c' hc'
        split at hc'
        · obtain ⟨k1, k2⟩ := fold_keeps L _ _ _ _ hc'
          exact ⟨k2, k1⟩
        · injection hc' with hc'; subst hc'; exact ⟨rfl, rfl⟩
      · rcases hc2 with h | h
        · injection h with h; subst h; exact ⟨rfl, rfl⟩
        · exact Step.noConfusion h
    refine ⟨?_, ?_⟩
    · intro c2 h
      obtain ⟨k1, k2⟩ := hcases c2 (Or.inl h)
      exact ⟨k1, by rw [if_neg hl]; exact k2⟩
    · intro c2 h
      obtain ⟨k1, k2⟩ := hcases c2 (Or.inr h)
      exact ⟨by omega, k1, k2⟩

/-- The emission with `last_hdr` assigned and in range. -/
theorem emit_some (L : Layout) (c : Cfg) (rest : List ReadResult) (l : vm_header)
    (hl : c.last_hdr = some l) (h0 : 0 ≤ l.output) (h1 : l.output < L.VM_MAX_OUTPUTS) :
    emit L c rest =
      Outcome.ret l.output
        { c.self with offset := setAt c.self.offset l.output.toNat L.sizeof_vm_header }
        (setAt c.buffer l.output.toNat
          (memcpy (c.buffer l.output.toNat) 0 L.sizeof_vm_header
            (Cell.hdr { l with n_buffers := (c.num_buffers : Int) })))
        rest := by
  simp only [emit, hl, h0, h1, and_self, if_true]

/-- Where `last_hdr` comes from at the emission: it is the record decoded before
the read that led to line 188. -/
theorem emission_source (L : Layout) :
    ∀ (stream : List ReadResult) (c c' : Cfg) (rest : List ReadResult),
      (c.self.hdr = none → c.last_hdr = none) →
      recv_loop L c stream = Stop.emit c' rest →
      ∃ pre r, stream = pre ++ r :: rest ∧ 0 ≤ r.len ∧
        c'.last_hdr = decoded_last c.self.hdr pre ∧ c'.self.hdr = some r.data.hdr := by
  intro stream
  induction stream with
  | nil =>
    intro c c' rest _ h
    unfold recv_loop at h
    split at h <;> exact Stop.noConfusion h
  | cons r rest0 ih =>
    intro c c' rest hinv h
    cases ht : loop_top L c with
    | error f => simp only [recv_loop, ht] at h; exact Stop.noConfusion h
    | ok c1 =>
      obtain ⟨k1, k2⟩ := loop_top_keeps L c c1 ht hinv
      obtain ⟨hnext, hemit⟩ := after_read_keeps L c1 r
      cases ha : after_read L c1 r with
      | fault f => simp only [recv_loop, ht, ha] at h; exact Stop.noConfusion h
      | emit c2 =>
        rw [recv_loop_emit L _ _ _ _ _ ht ha] at h
        injection h with h1 h2
        subst h1 h2
        obtain ⟨e1, e2, e3⟩ := hemit c2 ha
        exact ⟨[], r, rfl, e1, by rw [e2, k2]; rfl, e3⟩
      | next c2 =>
        rw [recv_loop_next L _ _ _ _ _ ht ha] at h
        obtain ⟨n1, n2⟩ := hnext c2 ha
        have hinv2 : c2.self.hdr = none → c2.last_hdr = none := by
          intro h0
          rw [n1, k2]
          rw [n2] at h0
          by_cases hl : r.len < 0
          · rw [if_pos hl, k1] at h0; exact h0
          · rw [if_neg hl] at h0; exact Option.noConfusion h0
        obtain ⟨pre, r', hs, hl', hlast, hh'⟩ := ih c2 c' rest hinv2 h
        refine ⟨r :: pre, r', by rw [hs]; rfl, hl', ?_, hh'⟩
        rw [hlast, n2, k1]
        rfl

/-- C1 (evaluation of the code where the claim fails): on a freshly initialised
communicator a single full record for an in-range output that declares
`n_buffers = 1` makes `recv_metadata` reach the emission with `last_hdr` never
assigned, so neither the returned index nor the destination of the header is
determined by the record. -/
theorem C1_single_buffer_frame_emits_unassigned_last_hdr (L : Layout) (s : Communicator)
    (buffer : Nat → Nat → Option Cell) (r : ReadResult) (hs : Fresh L s)
    (hlen : r.len = record_size L) (h0 : 0 ≤ r.data.hdr.output)
    (h1 : r.data.hdr.output < L.VM_MAX_OUTPUTS) (hn : r.data.hdr.n_buffers = 1) :
    recv_metadata L s buffer [r] = Outcome.fault Fault.uninitialised := by
  have hl : 0 ≤ r.len := by rw [hlen]; exact Int.natCast_nonneg _
  obtain ⟨c1, htop, hlast, -, -, -, hafter⟩ := first_pass L s buffer r hs.1 hl h0 h1
  rw [if_pos hn.symm] at hafter
  rw [recv_metadata, recv_loop_emit L _ _ _ _ _ htop hafter]
  simp [emit, append_record, hlast]

/-- C1, witness: the sample layout, a fresh object and one record
`{out=0, seq=1, n=1}`. -/
theorem C1_single_buffer_frame_emits_unassigned_last_hdr_witness :
    Fresh sampleLayout sampleFresh ∧
    recv_metadata sampleLayout sampleFresh emptyBuffers [sampleRecord 0 1 1 7]
      = Outcome.fault Fault.uninitialised :=
  ⟨by decide,
   C1_single_buffer_frame_emits_unassigned_last_hdr sampleLayout sampleFresh emptyBuffers
     (sampleRecord 0 1 1 7) (by decide) rfl (by decide) (by decide) rfl⟩

/-- C2: from a freshly initialised communicator, `N ≥ 2` full records for the
in-range output `O` with equal counter `c` and `n_buffers = N` make one call of
`recv_metadata` consume all of them and return `O`; `destination[O]` then holds
at offset 0 a header with `output = O`, `counter = c`, `n_buffers = N`, and from
`sizeof(vm_header)` on the `N` descriptors in arrival order, the `i`-th at
`sizeof(vm_header) + i * sizeof(vm_buffer_info)`, each carrying the event id of
its own record. -/
theorem C2_multi_buffer_frame_layout (L : Layout) (s : Communicator)
    (buffer : Nat → Nat → Option Cell) (O c : Int) (N : Nat) (recs : List ReadResult)
    (hs : Fresh L s) (hN : 2 ≤ N) (hlen : recs.length = N)
    (h0 : 0 ≤ O) (h1 : O < L.VM_MAX_OUTPUTS)
    (hrecs : ∀ r ∈ recs, r.len = record_size L ∧ r.data.hdr.output = O ∧
      r.data.hdr.counter = c ∧ r.data.hdr.n_buffers = N) :
    ∃ self' buffer' l,
      recv_metadata L s buffer recs = Outcome.ret O self' buffer' [] ∧
      l.output = O ∧ l.counter = c ∧ l.n_buffers = (N : Int) ∧
      (∀ j, j < L.sizeof_vm_header → buffer' O.toNat j = some (Cell.hdr l j)) ∧
      (∀ i r, recs[i]? = some r → ∀ j, j < L.sizeof_vm_buffer_info →
        buffer' O.toNat (L.sizeof_vm_header + i * L.sizeof_vm_buffer_info + j)
          = some (Cell.info
              { hyper_dmabuf_id := r.data.hid, payload := r.data.info.payload } j)) := by
  have hsz : (0 : Int) ≤ record_size L := Int.natCast_nonneg _
  have hOn : O.toNat < L.VM_MAX_OUTPUTS := by omega
  match recs, hlen, hrecs with
  | [], hlen, _ => simp only [List.length_nil] at hlen; omega
  | r :: rest, hlen, hrecs =>
    obtain ⟨hrl, hro, hrc, hrn⟩ := hrecs r (List.mem_cons_self _ _)
    have hall : ∀ x ∈ rest, 0 ≤ x.len ∧ x.data.hdr.output = O ∧ x.data.hdr.counter = c ∧
        x.data.hdr.n_buffers = N := fun x hx => by
      obtain ⟨a, b⟩ := hrecs x (List.mem_cons_of_mem _ hx)
      exact ⟨by rw [a]; exact hsz, b⟩
    obtain ⟨c1, htop, hlast, hnum, hoff, hbuf, hafter⟩ := first_pass L s buffer r hs.1
      (by rw [hrl]; exact hsz) (by rw [hro]; exact h0) (by rw [hro]; exact h1)
    have hne : ¬ (1 : Int) = r.data.hdr.n_buffers := by rw [hrn]; omega
    rw [if_neg hne] at hafter
    simp only [List.length_cons] at hlen
    have hrest : rest ≠ [] := by
      intro h; rw [h] at hlen; simp only [List.length_nil] at hlen; omega
    have hcur : (append_record L c1 r).self.offset O.toNat
        = L.sizeof_vm_header + L.sizeof_vm_buffer_info := by
      simp only [append_record, hro, setAt_same, hoff, hs.2.2.2 _ hOn]
    obtain ⟨c', hrun, hcn, ⟨l, hl, hlo, hlc⟩, hlow, hdesc⟩ :=
      frame_loop L O c N h0 h1 rest (append_record L c1 r) r.data.hdr hrest hall rfl rfl hro hrc
        (by simp only [append_record, hnum]; omega)
    rw [hcur] at hlow hdesc
    refine ⟨{ c'.self with offset := setAt c'.self.offset O.toNat L.sizeof_vm_header },
      setAt c'.buffer O.toNat (memcpy (c'.buffer O.toNat) 0 L.sizeof_vm_header
        (Cell.hdr { l with n_buffers := (N : Int) })),
      { l with n_buffers := (N : Int) }, ?_, hlo, hlc, rfl, ?_, ?_⟩
    · rw [recv_metadata, recv_loop_next L _ _ _ _ _ htop hafter, hrun]
      simp only [emit, hl, hlo, h0, h1, hcn, and_self, if_true]
    · intro j hj
      rw [setAt_same]
      have := memcpy_inside (c'.buffer O.toNat) 0 L.sizeof_vm_header
        (Cell.hdr { l with n_buffers := (N : Int) }) j hj
      simpa using this
    · intro i x hx j hj
      rw [setAt_same, memcpy_above _ _ _ _ _ (by omega)]
      cases i with
      | zero =>
        simp only [List.getElem?_cons_zero, Option.some.injEq] at hx
        subst hx
        rw [hlow _ (by omega)]
        simp only [append_record, hro, setAt_same, hoff, hs.2.2.2 _ hOn, Nat.zero_mul,
          Nat.add_zero]
        exact memcpy_inside _ _ _ _ _ hj
      | succ k =>
        simp only [List.getElem?_cons_succ] at hx
        have e : L.sizeof_vm_header + (k + 1) * L.sizeof_vm_buffer_info + j
            = L.sizeof_vm_header + L.sizeof_vm_buffer_info + k * L.sizeof_vm_buffer_info + j := by
          rw [Nat.succ_mul]; omega
        rw [e]
        exact hdesc k x hx j hj

/-- C2, witness: the scenario `[A, B]` with `n = 2` on output 0. -/
theorem C2_multi_buffer_frame_layout_witness :
    Fresh sampleLayout sampleFresh ∧
    ∃ self' buffer' l,
      recv_metadata sampleLayout sampleFresh emptyBuffers
          [sampleRecord 0 1 2 10, sampleRecord 0 1 2 11]
        = Outcome.ret 0 self' buffer' [] ∧
      l.output = 0 ∧ l.counter = 1 ∧ l.n_buffers = ((2 : Nat) : Int) ∧
      (∀ j, j < sampleLayout.sizeof_vm_header →
        buffer' (0 : Int).toNat j = some (Cell.hdr l j)) ∧
      (∀ i r, [sampleRecord 0 1 2 10, sampleRecord 0 1 2 11][i]? = some r →
        ∀ j, j < sampleLayout.sizeof_vm_buffer_info →
        buffer' (0 : Int).toNat
            (sampleLayout.sizeof_vm_header + i * sampleLayout.sizeof_vm_buffer_info + j)
          = some (Cell.info
              { hyper_dmabuf_id := r.data.hid, payload := r.data.info.payload } j)) :=
  ⟨by decide,
   C2_multi_buffer_frame_layout sampleLayout sampleFresh emptyBuffers 0 1 2
     [sampleRecord 0 1 2 10, sampleRecord 0 1 2 11] (by decide) (by decide) rfl
     (by decide) (by decide) (by decide)⟩

/-- C3 (evaluation of the code where the claim fails): on the stream
`[ {out=0,seq=1,n=3,buf=A}, {out=1,seq=5,n=1,buf=C} ]` from a fresh object the
first call does not return. Record C is appended to `destination[1]` and counted
in the running count of the same call (count 2, both cursors advanced by one
descriptor), no header is written, and the call waits for a further record. -/
theorem C3_sequence_change_does_not_close_frame :
    (recv_metadata sampleLayout sampleFresh emptyBuffers
        [sampleRecord 0 1 3 10, sampleRecord 1 5 1 12]).value = none ∧
    (recv_metadata sampleLayout sampleFresh emptyBuffers
        [sampleRecord 0 1 3 10, sampleRecord 1 5 1 12]).failure = none ∧
    (recv_metadata sampleLayout sampleFresh emptyBuffers
        [sampleRecord 0 1 3 10, sampleRecord 1 5 1 12]).waiting.map
      (fun c => (c.num_buffers, c.self.offset 0, c.self.offset 1, c.buffer 0 0,
        c.buffer 1 24))
      = some (2, 124, 124, none,
          some (Cell.info { hyper_dmabuf_id := 12, payload := 12 } 0)) := by
  decide

/-- C4 (evaluation of the code where the claim fails): the out-of-range record
`{out=4}` between the two records of a frame for output 0 is skipped when it is
read, but the head of the next loop pass appends it through
`buffer[4] + offset[4]`, outside both arrays; with the record deleted the same
call returns 0 with the two-descriptor frame. -/
theorem C4_out_of_range_record_is_appended_at_loop_head :
    (recv_metadata sampleLayout sampleFresh emptyBuffers
        [sampleRecord 0 1 2 10, sampleRecord 4 1 2 99, sampleRecord 0 1 2 11]).failure
      = some (Fault.out_of_bounds 4) ∧
    (recv_metadata sampleLayout sampleFresh emptyBuffers
        [sampleRecord 0 1 2 10, sampleRecord 4 1 2 99, sampleRecord 0 1 2 11]).value = none ∧
    (recv_metadata sampleLayout sampleFresh emptyBuffers
        [sampleRecord 0 1 2 10, sampleRecord 0 1 2 11]).value = some 0 ∧
    (recv_metadata sampleLayout sampleFresh emptyBuffers
        [sampleRecord 0 1 2 10, sampleRecord 0 1 2 11]).byte 0 0
      = some (Cell.hdr { output := 0, counter := 1, n_buffers := 2, other := 0 } 0) := by
  decide

/-- C5 (evaluation of the code where the claim fails): with `VM_MAX_OUTPUTS = 4`
a record for output 4 is used as an index without validation, by the append at
the head of the loop when its counter differs from `last_counter`, and by the
header write of the emission when it has become `last_hdr`. -/
theorem C5_unvalidated_output_index :
    (recv_metadata sampleLayout sampleFresh emptyBuffers [sampleRecord 4 7 1 99]).failure
      = some (Fault.out_of_bounds 4) ∧
    (recv_loop sampleLayout (enter sampleFresh emptyBuffers)
        [sampleRecord 4 (-1) 1 99, sampleRecord 0 1 1 10]).cfg.map
      (fun c => (c.last_hdr.map (fun l => l.output), c.num_buffers))
      = some (some 4, 1) ∧
    (recv_metadata sampleLayout sampleFresh emptyBuffers
        [sampleRecord 4 (-1) 1 99, sampleRecord 0 1 1 10]).failure
      = some (Fault.out_of_bounds 4) := by
  decide

/-- C6, counterexample: three records of one frame, `n_buffers = 3`, for the
outputs 0, 1, 0. The call returns 1 and writes a header with `n_buffers = 3` to
`destination[1]`, to which one descriptor was appended: `offset[1]` is 124 at the
emission, and `(124 - 24) / 100 = 1`. -/
theorem C6_counterexample_interleaved_outputs :
    (recv_metadata sampleLayout sampleFresh emptyBuffers
        [sampleRecord 0 1 3 10, sampleRecord 1 1 3 11, sampleRecord 0 1 3 12]).value = some 1 ∧
    (recv_metadata sampleLayout sampleFresh emptyBuffers
        [sampleRecord 0 1 3 10, sampleRecord 1 1 3 11, sampleRecord 0 1 3 12]).byte 1 0
      = some (Cell.hdr { output := 1, counter := 1, n_buffers := 3, other := 0 } 0) ∧
    (recv_loop sampleLayout (enter sampleFresh emptyBuffers)
        [sampleRecord 0 1 3 10, sampleRecord 1 1 3 11, sampleRecord 0 1 3 12]).cfg.map
      (fun c => (c.self.offset 1 - sampleLayout.sizeof_vm_header)
        / sampleLayout.sizeof_vm_buffer_info) = some 1 := by
  decide

/-- C6 (amended): on a stream of full records for in-range outputs that either
all target one output or arrive frame by frame (`Framed`: each frame is `m`
records for one output, all declaring `n_buffers = m`; a frame of a single record
directly follows a record for the same output), starting from a freshly
initialised communicator, whenever one of the consecutive calls returns an
index `v`, every byte of the header region of `destination[v]` belongs to a
header whose `n_buffers` is
`(offset[v] just before the reset - sizeof(vm_header)) / sizeof(vm_buffer_info)`. -/
theorem C6_count_matches_content (L : Layout) (n : Nat)
    (s : Communicator) (buffer : Nat → Nat → Option Cell) (stream : List ReadResult)
    (hs : Fresh L s) (hI : 0 < L.sizeof_vm_buffer_info)
    (hrecs : (∃ O : Int, 0 ≤ O ∧ O < L.VM_MAX_OUTPUTS ∧
        ∀ r ∈ stream, r.len = record_size L ∧ r.data.hdr.output = O) ∨
      (∃ K, Framed L K 0 0 none stream))
    (c : Cfg) (rest : List ReadResult) (v : Int) (s' : Communicator)
    (buffer' : Nat → Nat → Option Cell) (rest' : List ReadResult)
    (hcall : Stop.emit c rest ∈ calls L n s buffer stream)
    (hret : emit L c rest = Outcome.ret v s' buffer' rest') :
    ∀ j, j < L.sizeof_vm_header →
      ∃ l, buffer' v.toNat j = some (Cell.hdr l j) ∧
        l.n_buffers =
          (((c.self.offset v.toNat - L.sizeof_vm_header) / L.sizeof_vm_buffer_info : Nat) : Int) := by
  have hsz : (0 : Int) ≤ record_size L := Int.natCast_nonneg _
  obtain ⟨l, hl, hv, hb⟩ := emitted_header L c rest v s' buffer' rest' hret
  have hcur : c.self.offset v.toNat
      = L.sizeof_vm_header + c.num_buffers * L.sizeof_vm_buffer_info := by
    rcases hrecs with ⟨O, h0, h1, hall⟩ | ⟨K, hF⟩
    · have hinv := single_output_calls L O h0 h1 n s buffer stream
        (fresh_between L O s hs h0 h1)
        (fun r hr => ⟨by rw [(hall r hr).1]; exact hsz, (hall r hr).2⟩) _ hcall
      rcases hinv with ⟨c', hx, -⟩ | ⟨c', rest2, hx, hE⟩
      · exact Stop.noConfusion hx
      · injection hx with hc _
        subst hc
        rw [hv, hE.2.2 l hl]
        exact hE.2.1
    · have hinv := framed_calls L K n s buffer stream 0 none hF
        (fresh_frame_head L s buffer hs) _ hcall
      rcases hinv with ⟨c', k, prev', hx, -⟩ | ⟨c', rest2, k, O, hx, hH, -, l2, hl2, hlo⟩
      · exact Stop.noConfusion hx
      · injection hx with hc _
        subst hc
        rw [hl] at hl2
        simp only [Option.some.injEq] at hl2
        subst hl2
        rw [hv, hlo, (hH.2.2.2.1 O rfl).2.2, hH.2.2.1]
  intro j hj
  refine ⟨_, hb j hj, ?_⟩
  rw [hcur, Nat.add_sub_cancel_left, Nat.mul_div_cancel _ hI]

/-- C6, witness: a frame of two records on output 0 and a frame of two on
output 1; the second call returns 1. -/
theorem C6_count_matches_content_witness :
    Fresh sampleLayout sampleFresh ∧
    Framed sampleLayout 2 0 0 none
      [sampleRecord 0 1 2 10, sampleRecord 0 1 2 11, sampleRecord 1 2 2 12,
        sampleRecord 1 2 2 13] ∧
    ∃ (c : Cfg) (buffer' : Nat → Nat → Option Cell),
      Stop.emit c [] ∈ calls sampleLayout 2 sampleFresh emptyBuffers
        [sampleRecord 0 1 2 10, sampleRecord 0 1 2 11, sampleRecord 1 2 2 12,
          sampleRecord 1 2 2 13] ∧
      ∀ j, j < sampleLayout.sizeof_vm_header →
        ∃ l, buffer' (1 : Int).toNat j = some (Cell.hdr l j) ∧
          l.n_buffers =
            (((c.self.offset (1 : Int).toNat - sampleLayout.sizeof_vm_header)
              / sampleLayout.sizeof_vm_buffer_info : Nat) : Int) :=
  ⟨by decide, by decide, _, _, List.mem_cons_of_mem _ (List.mem_singleton.mpr rfl),
   C6_count_matches_content sampleLayout 2 sampleFresh emptyBuffers
     [sampleRecord 0 1 2 10, sampleRecord 0 1 2 11, sampleRecord 1 2 2 12,
       sampleRecord 1 2 2 13] (by decide) (by decide) (Or.inr ⟨2, by decide⟩)
     _ [] 1 _ _ [] (List.mem_cons_of_mem _ (List.mem_singleton.mpr rfl)) rfl⟩

/-- C7, counterexample with `K = 2`, so that the claimed bound is
`24 + 2 * 100 = 224`. First stream: output 0 only, declared counts 2, 1, 1; the
running count passes the declared count without ever being equal to it and
`offset[0]` reaches 324. Second stream: every record declares 2 buffers, outputs
0, 1, 1, 1; the first call resets the cursor of output 0 only, and in the second
call `offset[1]` reaches 324. -/
theorem C7_counterexample_cursor_exceeds_bound :
    (calls sampleLayout 1 sampleFresh emptyBuffers
        [sampleRecord 0 1 2 10, sampleRecord 0 1 1 11, sampleRecord 0 1 1 12]).map
      (fun x => x.cfg.map (fun c => c.self.offset 0)) = [some 324] ∧
    (calls sampleLayout 2 sampleFresh emptyBuffers
        [sampleRecord 0 1 2 10, sampleRecord 1 1 2 11, sampleRecord 1 2 2 12,
          sampleRecord 1 2 2 13]).map
      (fun x => x.cfg.map (fun c => c.self.offset 1)) = [some 124, some 324] ∧
    ¬ (324 ≤ sampleLayout.sizeof_vm_header + 2 * sampleLayout.sizeof_vm_buffer_info) := by
  decide

/-- C7 (amended): for every `K` and every stream of full records for in-range
outputs that arrives frame by frame (`Framed`: each frame is `m` records,
`1 ≤ m ≤ K`, for one output, all declaring `n_buffers = m`; a frame of a single
record directly follows a record for the same output), starting from a freshly
initialised communicator, however many calls are made, every call stops (at the
emission, before the reset, or blocked for the next record) with every cursor at
most `sizeof(vm_header) + K * sizeof(vm_buffer_info)`. Framed streams are closed
under prefixes, so this bounds the cursors after every record. -/
theorem C7_cursor_bound_framed_stream (L : Layout) (K n : Nat)
    (s : Communicator) (buffer : Nat → Nat → Option Cell) (stream : List ReadResult)
    (hs : Fresh L s) (hrecs : Framed L K 0 0 none stream) :
    ∀ x ∈ calls L n s buffer stream, ∃ c, x.cfg = some c ∧
      ∀ o, o < L.VM_MAX_OUTPUTS →
        c.self.offset o ≤ L.sizeof_vm_header + K * L.sizeof_vm_buffer_info := by
  intro x hx
  rcases framed_calls L K n s buffer stream 0 none hrecs (fresh_frame_head L s buffer hs) x hx
    with ⟨c, k, prev, hxc, hQ, hk⟩ | ⟨c, rest, k, O, hxc, hH, hk, -⟩
  · exact ⟨c, by rw [hxc]; rfl, cursors_bound L K k prev _ hQ.2.2.2 hk⟩
  · exact ⟨c, by rw [hxc]; rfl, cursors_bound L K k (some O) _ hH.2.2.2 hk⟩

/-- C7, witness: a frame of two records on output 0, a frame of three on
output 1 and the first record of a further frame, with `K = 3` and four calls. -/
theorem C7_cursor_bound_framed_stream_witness :
    Fresh sampleLayout sampleFresh ∧
    Framed sampleLayout 3 0 0 none
      [sampleRecord 0 1 2 10, sampleRecord 0 1 2 11, sampleRecord 1 2 3 12,
        sampleRecord 1 2 3 13, sampleRecord 1 2 3 14, sampleRecord 0 3 2 15] ∧
    ∀ x ∈ calls sampleLayout 4 sampleFresh emptyBuffers
        [sampleRecord 0 1 2 10, sampleRecord 0 1 2 11, sampleRecord 1 2 3 12,
          sampleRecord 1 2 3 13, sampleRecord 1 2 3 14, sampleRecord 0 3 2 15],
      ∃ c, x.cfg = some c ∧
        ∀ o, o < sampleLayout.VM_MAX_OUTPUTS →
          c.self.offset o
            ≤ sampleLayout.sizeof_vm_header + 3 * sampleLayout.sizeof_vm_buffer_info :=
  ⟨by decide, by decide,
   C7_cursor_bound_framed_stream sampleLayout 3 4 sampleFresh emptyBuffers
     [sampleRecord 0 1 2 10, sampleRecord 0 1 2 11, sampleRecord 1 2 3 12,
       sampleRecord 1 2 3 13, sampleRecord 1 2 3 14, sampleRecord 0 3 2 15]
     (by decide) (by decide)⟩

/-- C8: whenever `recv_metadata` returns the index `O`, from any state and on
any stream, `offset[O]` is `sizeof(struct vm_header)` on return. -/
theorem C8_cursor_reset_on_return (L : Layout) (s : Communicator)
    (buffer : Nat → Nat → Option Cell) (stream : List ReadResult) (O : Int)
    (self' : Communicator) (buffer' : Nat → Nat → Option Cell) (rest : List ReadResult)
    (h : recv_metadata L s buffer stream = Outcome.ret O self' buffer' rest) :
    self'.offset O.toNat = L.sizeof_vm_header := by
  unfold recv_metadata at h
  split at h
  · obtain ⟨l, -, hv, -, -, hs, -, -⟩ := emit_ret L _ _ _ _ _ _ h
    rw [hs, hv]
    exact setAt_same _ _ _
  · exact Outcome.noConfusion h
  · exact Outcome.noConfusion h

/-- C8, witness: the two-record frame on output 0 returns 0 and leaves
`offset[0]` at the header size. -/
theorem C8_cursor_reset_on_return_witness :
    ∃ self' buffer',
      recv_metadata sampleLayout sampleFresh emptyBuffers
          [sampleRecord 0 1 2 10, sampleRecord 0 1 2 11]
        = Outcome.ret 0 self' buffer' [] ∧
      self'.offset (0 : Int).toNat = sampleLayout.sizeof_vm_header :=
  ⟨_, _, rfl,
   C8_cursor_reset_on_return sampleLayout sampleFresh emptyBuffers
     [sampleRecord 0 1 2 10, sampleRecord 0 1 2 11] 0 _ _ [] rfl⟩

/-- C9, counterexample: a failed `recv_data` followed by the two records of a
frame for output 0. The call does not end at the failure: it reads both records,
appends both descriptors and returns the output index 0. -/
theorem C9_counterexample_failed_read_then_frame :
    failedRead.len < 0 ∧
    (recv_metadata sampleLayout sampleFresh emptyBuffers
        [failedRead, sampleRecord 0 1 2 10, sampleRecord 0 1 2 11]).value = some 0 ∧
    (recv_metadata sampleLayout sampleFresh emptyBuffers
        [failedRead, sampleRecord 0 1 2 10, sampleRecord 0 1 2 11]).unread = some [] ∧
    (recv_metadata sampleLayout sampleFresh emptyBuffers
        [failedRead, sampleRecord 0 1 2 10, sampleRecord 0 1 2 11]).byte 0 24
      = some (Cell.info { hyper_dmabuf_id := 10, payload := 10 } 0) ∧
    (recv_metadata sampleLayout sampleFresh emptyBuffers
        [failedRead, sampleRecord 0 1 2 10, sampleRecord 0 1 2 11]).byte 0 124
      = some (Cell.info { hyper_dmabuf_id := 11, payload := 11 } 0) := by
  decide

/-- C9 (amended): a negative result of `recv_data` does not end `recv_metadata`;
the loop goes on and reads again. From any state, a call all of whose reads
fail does not return; and while no record has been decoded (`hdr` null), failed
reads ahead of the stream `rest` leave the result of the call as it is on
`rest` alone. -/
theorem C9_failed_read_is_retried (L : Layout) (s : Communicator)
    (buffer : Nat → Nat → Option Cell) (fails rest : List ReadResult)
    (hf : ∀ r ∈ fails, r.len < 0) :
    (recv_metadata L s buffer fails).value = none ∧
    (s.hdr = none →
      recv_metadata L s buffer (fails ++ rest) = recv_metadata L s buffer rest) := by
  constructor
  · unfold recv_metadata
    split
    · rename_i c rest' h
      exact absurd h (recv_loop_failed L fails _ hf c rest')
    · rfl
    · rfl
  · intro hs
    unfold recv_metadata
    rw [recv_loop_skips_failed L rest fails (enter s buffer) hf hs]

/-- C9, witness: two failed reads ahead of a two-record frame. -/
theorem C9_failed_read_is_retried_witness :
    (∀ r ∈ [failedRead, failedRead], r.len < 0) ∧
    (recv_metadata sampleLayout sampleFresh emptyBuffers [failedRead, failedRead]).value
      = none ∧
    (sampleFresh.hdr = none →
      recv_metadata sampleLayout sampleFresh emptyBuffers
          ([failedRead, failedRead] ++ [sampleRecord 0 1 2 10, sampleRecord 0 1 2 11])
        = recv_metadata sampleLayout sampleFresh emptyBuffers
          [sampleRecord 0 1 2 10, sampleRecord 0 1 2 11]) :=
  ⟨by decide,
   C9_failed_read_is_retried sampleLayout sampleFresh emptyBuffers [failedRead, failedRead]
     [sampleRecord 0 1 2 10, sampleRecord 0 1 2 11] (by decide)⟩

/-- C10, counterexample: after the full record A for output 0 (three buffers
declared), a read of length 0 that leaves the scratch area as the decoding of A
left it. The block is decoded and A is appended once more: the running count goes from 1 to 2,
`offset[0]` from 124 to 224, and the bytes from 124 on hold a second copy of the
descriptor. -/
theorem C10_counterexample_short_read_is_decoded :
    (0 : Int) < record_size sampleLayout ∧
    (recv_loop sampleLayout (enter sampleFresh emptyBuffers)
        [sampleRecord 0 1 3 10]).cfg.map
      (fun c => (c.num_buffers, c.self.offset 0, c.buffer 0 124)) = some (1, 124, none) ∧
    (recv_loop sampleLayout (enter sampleFresh emptyBuffers)
        [sampleRecord 0 1 3 10,
          { len := 0,
            data := { (sampleRecord 0 1 3 10).data with
                      info := stamp (sampleRecord 0 1 3 10).data } }]).cfg.map
      (fun c => (c.num_buffers, c.self.offset 0, c.buffer 0 124))
      = some (2, 224, some (Cell.info { hyper_dmabuf_id := 10, payload := 10 } 0)) := by
  decide

/-- C10 (amended): `recv_metadata` tests only the sign of the length. A block of
any length `len ≥ 0`, however short, is decoded and handled exactly as a full
record with the same content of the scratch area. -/
theorem C10_short_read_handled_as_full (L : Layout) (s : Communicator)
    (buffer : Nat → Nat → Option Cell) (d : Scratch) (len : Int)
    (rest : List ReadResult) (hlen : 0 ≤ len) :
    (∀ c, after_read L c { len := len, data := d }
        = after_read L c { len := record_size L, data := d }) ∧
    recv_metadata L s buffer ({ len := len, data := d } :: rest)
      = recv_metadata L s buffer ({ len := record_size L, data := d } :: rest) := by
  have hsz : (0 : Int) ≤ record_size L := Int.natCast_nonneg _
  have key : ∀ c, after_read L c { len := len, data := d }
      = after_read L c { len := record_size L, data := d } := by
    intro c
    simp only [after_read, not_lt.mpr hlen, not_lt.mpr hsz, if_false]
  refine ⟨key, ?_⟩
  simp only [recv_metadata, recv_loop, key]

/-- C10, witness: a block of length 0 carrying the fields of a record for
output 0. -/
theorem C10_short_read_handled_as_full_witness :
    (0 : Int) ≤ 0 ∧ (0 : Int) < record_size sampleLayout ∧
    (∀ c, after_read sampleLayout c { len := 0, data := (sampleRecord 0 1 3 10).data }
        = after_read sampleLayout c
            { len := record_size sampleLayout, data := (sampleRecord 0 1 3 10).data }) ∧
    recv_metadata sampleLayout sampleFresh emptyBuffers
        [{ len := 0, data := (sampleRecord 0 1 3 10).data }]
      = recv_metadata sampleLayout sampleFresh emptyBuffers
        [{ len := record_size sampleLayout, data := (sampleRecord 0 1 3 10).data }] :=
  ⟨by decide, by decide,
   C10_short_read_handled_as_full sampleLayout sampleFresh emptyBuffers
     (sampleRecord 0 1 3 10).data 0 [] (by decide)⟩

/-- C11: `recv_data` with direction `Receiver`, the outcomes of `poll` given as
an input sequence. Outcomes `-1` with `EINTR` or `EAGAIN` are retried and leave
the result of the call as it is without them; a positive outcome with neither
`POLLERR` nor `POLLNVAL` is followed by exactly one `read` of `max_len` bytes
whose result is returned unchanged; a positive outcome with `POLLERR` or
`POLLNVAL` returns `-1` at once without a `read`. -/
theorem C11_recv_data_readiness (s : Communicator) (max_len read_result : Int)
    (hdir : s.direction = HyperCommunicatorDirection.Receiver) :
    (∀ retries rest, (∀ p ∈ retries, PollOutcome.transient p) →
      recv_data s max_len read_result (retries ++ rest)
        = recv_data s max_len read_result rest) ∧
    (∀ p rest, PollOutcome.ready p →
      recv_data s max_len read_result (p :: rest)
        = Received.returned read_result [max_len] rest) ∧
    (∀ p rest, 0 < p.ret → p.revents_error = true →
      recv_data s max_len read_result (p :: rest) = Received.returned (-1) [] rest) := by
  refine ⟨?_, ?_, ?_⟩
  · intro retries rest h
    simp only [recv_data, hdir, if_true, poll_loop_transient rest retries h]
  · intro p rest hp
    have hpos : p.ret > 0 := hp.1
    simp [recv_data, hdir, poll_loop, hpos, hp.2]
  · intro p rest hpos herr
    have hpos2 : p.ret > 0 := hpos
    simp [recv_data, hdir, poll_loop, hpos2, herr]

/-- C11, witness: an interrupted `poll`, a `poll` that would block, then a
readable descriptor; the `read` returns the short length 40. -/
theorem C11_recv_data_readiness_witness :
    sampleFresh.direction = HyperCommunicatorDirection.Receiver ∧
    recv_data sampleFresh 152 40
        [{ ret := -1, errno := Errno.EINTR, revents_error := false },
         { ret := -1, errno := Errno.EAGAIN, revents_error := false },
         { ret := 1, errno := Errno.other, revents_error := false }]
      = Received.returned 40 [152] [] :=
  ⟨by decide,
   ((C11_recv_data_readiness sampleFresh 152 40 (by decide)).1
      [{ ret := -1, errno := Errno.EINTR, revents_error := false },
       { ret := -1, errno := Errno.EAGAIN, revents_error := false }]
      [{ ret := 1, errno := Errno.other, revents_error := false }] (by decide)).trans
    ((C11_recv_data_readiness sampleFresh 152 40 (by decide)).2.1
      { ret := 1, errno := Errno.other, revents_error := false } [] (by decide))⟩

/-- C12 (evaluation of the code where the claim fails): when `poll` comes back
without a positive value and is not retried (a failure `-1` with an `errno`
other than `EINTR` and `EAGAIN`, or the value 0), the loop is left towards line
105: `recv_data` issues one `read` and returns its result. -/
theorem C12_read_after_failed_poll (s : Communicator) (max_len read_result : Int)
    (p : PollOutcome) (rest : List PollOutcome)
    (hdir : s.direction = HyperCommunicatorDirection.Receiver)
    (hfail : p.ret ≤ 0) (hnot : ¬ PollOutcome.transient p) :
    recv_data s max_len read_result (p :: rest)
      = Received.returned read_result [max_len] rest := by
  have hpos : ¬ p.ret > 0 := by omega
  unfold PollOutcome.transient at hnot
  simp only [recv_data, hdir, poll_loop, if_true, if_neg hpos, if_neg hnot]

/-- C12, witness: `poll` fails with `-1` and another `errno`; the `read` is
issued all the same and its result 152 is returned. -/
theorem C12_read_after_failed_poll_witness :
    sampleFresh.direction = HyperCommunicatorDirection.Receiver ∧
    ¬ PollOutcome.ready { ret := -1, errno := Errno.other, revents_error := false } ∧
    recv_data sampleFresh 152 152
        [{ ret := -1, errno := Errno.other, revents_error := false }]
      = Received.returned 152 [152] [] :=
  ⟨by decide, by decide,
   C12_read_after_failed_poll sampleFresh 152 152
     { ret := -1, errno := Errno.other, revents_error := false } []
     (by decide) (by decide) (by decide)⟩

/-- C13: `init` with a direction other than `Receiver` returns `-1`, opens no
device and leaves the object as it was; `send_data` returns `-1` for every
buffer and length and leaves the object as it was. -/
theorem C13_send_direction_fails (L : Layout) (s : Communicator)
    (dir : HyperCommunicatorDirection) (open1 open2 : Int) (buffer : List Nat) (len : Int)
    (hdir : dir ≠ HyperCommunicatorDirection.Receiver) :
    init L s dir open1 open2 = (-1, s) ∧ init_opens dir open1 = [] ∧
    send_data s buffer len = (-1, s) := by
  refine ⟨?_, ?_, rfl⟩
  · simp [init, hdir]
  · simp [init_opens, hdir]

/-- C13, witness: `init` for the send direction on an initialised object. -/
theorem C13_send_direction_fails_witness :
    HyperCommunicatorDirection.Sender ≠ HyperCommunicatorDirection.Receiver ∧
    init sampleLayout sampleFresh HyperCommunicatorDirection.Sender 3 4 = (-1, sampleFresh) ∧
    init_opens HyperCommunicatorDirection.Sender 3 = [] ∧
    send_data sampleFresh [1, 2, 3] 3 = (-1, sampleFresh) :=
  ⟨by decide,
   C13_send_direction_fails sampleLayout sampleFresh HyperCommunicatorDirection.Sender 3 4
     [1, 2, 3] 3 (by decide)⟩

/-- C14, counterexample: an object whose handle is -5. `cleanup` closes
nothing, as the guard of line 76 asks, and the handle is still -5 afterwards,
not -1. -/
theorem C14_counterexample_negative_handle_kept :
    (cleanup { blank with hyper_dmabuf_fd := -5 }).self.hyper_dmabuf_fd = -5 ∧
    (cleanup { blank with hyper_dmabuf_fd := -5 }).self.hyper_dmabuf_fd ≠ -1 ∧
    (cleanup { blank with hyper_dmabuf_fd := -5 }).closed = [] := by
  decide

/-- C14 (amended): `cleanup` is idempotent: a second call leaves the object as
the first one did, closes nothing and releases nothing, so over two calls the
handle is closed at most once and the scratch area released at most once. With a
negative handle, as after an `init` for the receive direction whose two `open`
calls failed, `cleanup` closes nothing. After `cleanup` the scratch pointer is
null and the handle is negative: it is `-1` when it was a descriptor before, and
it is left as it was when it was negative before. -/
theorem C14_cleanup_idempotent (L : Layout) (s : Communicator) (open1 open2 : Int) :
    (cleanup (cleanup s).self).self = (cleanup s).self ∧
    (cleanup (cleanup s).self).closed = [] ∧
    (cleanup (cleanup s).self).released = 0 ∧
    (cleanup s).closed.length + (cleanup (cleanup s).self).closed.length ≤ 1 ∧
    (cleanup s).released + (cleanup (cleanup s).self).released ≤ 1 ∧
    (s.hyper_dmabuf_fd < 0 → (cleanup s).closed = []) ∧
    ((init L s HyperCommunicatorDirection.Receiver open1 open2).1 = -1 →
      (cleanup (init L s HyperCommunicatorDirection.Receiver open1 open2).2).closed = []) ∧
    (cleanup s).self.hyper_dmabuf_fd < 0 ∧
    (0 ≤ s.hyper_dmabuf_fd → (cleanup s).self.hyper_dmabuf_fd = -1) ∧
    (s.hyper_dmabuf_fd < 0 → (cleanup s).self.hyper_dmabuf_fd = s.hyper_dmabuf_fd) ∧
    (cleanup s).self.metadata = false := by
  have hneg : ∀ t : Communicator, t.hyper_dmabuf_fd < 0 → (cleanup t).closed = [] := by
    intro t ht
    have : ¬ 0 ≤ t.hyper_dmabuf_fd := by omega
    simp [cleanup, this]
  have hafter : (cleanup s).self.hyper_dmabuf_fd < 0 := by
    by_cases h : 0 ≤ s.hyper_dmabuf_fd
    · simp [cleanup, h]
    · simp only [cleanup, if_neg h]; omega
  have hsecond : (cleanup (cleanup s).self).closed = [] := hneg _ hafter
  have hrel : (cleanup (cleanup s).self).released = 0 := by simp [cleanup]
  refine ⟨?_, hsecond, hrel, ?_, ?_, hneg s, ?_, hafter, ?_, ?_, rfl⟩
  · have h : ¬ 0 ≤ (cleanup s).self.hyper_dmabuf_fd := by omega
    simp only [cleanup] at h ⊢
    simp only [if_neg h]
  · rw [hsecond]
    by_cases h : 0 ≤ s.hyper_dmabuf_fd <;> simp [cleanup, h]
  · rw [hrel]
    by_cases h : s.metadata = true <;> simp [cleanup, h]
  · intro hfail
    apply hneg
    unfold init at hfail ⊢
    by_cases h1 : open1 < 0 <;> by_cases h2 : open2 < 0 <;> simp [h1, h2] at hfail ⊢
  · intro h0
    simp [cleanup, h0]
  · intro h
    have h0 : ¬ 0 ≤ s.hyper_dmabuf_fd := by omega
    simp only [cleanup, if_neg h0]

/-- C14, witness: `cleanup` twice on an initialised object with descriptor 3,
and once after an `init` whose two `open` calls returned `-1`. -/
theorem C14_cleanup_idempotent_witness :
    sampleFresh.hyper_dmabuf_fd = 3 ∧
    (cleanup sampleFresh).closed = [3] ∧ (cleanup sampleFresh).released = 1 ∧
    (cleanup (cleanup sampleFresh).self).closed = [] ∧
    (cleanup (cleanup sampleFresh).self).released = 0 ∧
    (cleanup sampleFresh).self.hyper_dmabuf_fd = -1 ∧
    (cleanup (init sampleLayout blank HyperCommunicatorDirection.Receiver (-1) (-1)).2).closed
      = [] :=
  ⟨by decide, by decide, by decide,
   (C14_cleanup_idempotent sampleLayout sampleFresh 3 (-1)).2.1,
   (C14_cleanup_idempotent sampleLayout sampleFresh 3 (-1)).2.2.1,
   (C14_cleanup_idempotent sampleLayout sampleFresh 3 (-1)).2.2.2.2.2.2.2.2.1 (by decide),
   (C14_cleanup_idempotent sampleLayout blank (-1) (-1)).2.2.2.2.2.2.1 (by decide)⟩

/-- C15: `init` for the receive direction. When one of the two `open` calls
succeeds it returns 0 and, whatever the object was before, leaves
`offset[i] = sizeof(struct vm_header)` for every `i < VM_MAX_OUTPUTS`,
`last_counter = -1` and `hdr`, `buf_info` null, with the handle the descriptor
that was opened. The second path is opened exactly when the first `open`
failed, and `init` returns `-1` when both fail. -/
theorem C15_init_receiver (L : Layout) (s : Communicator) (open1 open2 : Int) :
    ((0 ≤ open1 ∨ 0 ≤ open2) →
      (init L s HyperCommunicatorDirection.Receiver open1 open2).1 = 0 ∧
      (∀ i, i < L.VM_MAX_OUTPUTS →
        (init L s HyperCommunicatorDirection.Receiver open1 open2).2.offset i
          = L.sizeof_vm_header) ∧
      (init L s HyperCommunicatorDirection.Receiver open1 open2).2.last_counter = -1 ∧
      (init L s HyperCommunicatorDirection.Receiver open1 open2).2.hdr = none ∧
      (init L s HyperCommunicatorDirection.Receiver open1 open2).2.buf_info = none ∧
      (init L s HyperCommunicatorDirection.Receiver open1 open2).2.hyper_dmabuf_fd
        = (if open1 < 0 then open2 else open1)) ∧
    (DevicePath.dev_xen_hyper_dmabuf ∈ init_opens HyperCommunicatorDirection.Receiver open1
      ↔ open1 < 0) ∧
    (open1 < 0 → open2 < 0 →
      (init L s HyperCommunicatorDirection.Receiver open1 open2).1 = -1) := by
  refine ⟨?_, ?_, ?_⟩
  · intro h
    have hfd : ¬ (if open1 < 0 then open2 else open1) < 0 := by
      by_cases h1 : open1 < 0
      · rw [if_pos h1]; omega
      · rw [if_neg h1]; exact h1
    have hret : (init L s HyperCommunicatorDirection.Receiver open1 open2).1 = 0 := by
      simp only [init, if_true, if_neg hfd]
    obtain ⟨hh, hb, hlc, hoff⟩ := init_fresh L s _ open1 open2 hret
    refine ⟨hret, hoff, hlc, hh, hb, ?_⟩
    simp only [init, if_true, if_neg hfd]
  · by_cases h1 : open1 < 0 <;> simp [init_opens, h1]
  · intro h1 h2
    have hfd : (if open1 < 0 then open2 else open1) < 0 := by rw [if_pos h1]; exact h2
    simp only [init, if_true, if_pos hfd]

/-- C15, witness: the first `open` fails, the second returns descriptor 5, on
an object that was in use before. -/
theorem C15_init_receiver_witness :
    (init sampleLayout (cleanup sampleFresh).self
        HyperCommunicatorDirection.Receiver (-1) 5).1 = 0 ∧
    (∀ i, i < sampleLayout.VM_MAX_OUTPUTS →
      (init sampleLayout (cleanup sampleFresh).self
          HyperCommunicatorDirection.Receiver (-1) 5).2.offset i
        = sampleLayout.sizeof_vm_header) ∧
    (init sampleLayout (cleanup sampleFresh).self
        HyperCommunicatorDirection.Receiver (-1) 5).2.last_counter = -1 ∧
    (init sampleLayout (cleanup sampleFresh).self
        HyperCommunicatorDirection.Receiver (-1) 5).2.hdr = none ∧
    (init sampleLayout (cleanup sampleFresh).self
        HyperCommunicatorDirection.Receiver (-1) 5).2.buf_info = none ∧
    (init sampleLayout (cleanup sampleFresh).self
        HyperCommunicatorDirection.Receiver (-1) 5).2.hyper_dmabuf_fd
      = (if (-1 : Int) < 0 then 5 else -1) :=
  (C15_init_receiver sampleLayout (cleanup sampleFresh).self (-1) 5).1 (Or.inr (by decide))

/-- C17, counterexample: the record `{out=0,seq=1,n=3}`, a failed read, then
`{out=0,seq=2,n=3}` end the first call with the last record decoded but not
counted. The second call reads the single record R `{out=1,seq=9,n=1}` and
returns 0, the output of the record decoded before, but R is not appended:
byte 24 of `destination[1]` is untouched and `offset[1]` is still 24. -/
theorem C17_counterexample_pending_record :
    (session sampleLayout 2 sampleFresh emptyBuffers
        [sampleRecord 0 1 3 10, failedRead, sampleRecord 0 2 3 11,
          sampleRecord 1 9 1 12]).map
      (fun x => (x.value, x.unread.map List.length, x.byte 1 24, x.cursor 1))
      = [(some 0, some 1, none, some 24), (some 0, some 0, none, some 24)] := by
  decide

/-- C17 (amended): whenever `recv_metadata` returns, the returned index, the
region that receives the header, the cursor that is reset and every header field
but `n_buffers` come from the record decoded before the most recent read, while
`hdr` views the record just read. In particular, when the record P decoded
before targets the in-range output `p` and has been counted on entry
(`hdr->counter == last_counter`), and the call reads the in-range record R with
`n_buffers = 1` for an output `r ≠ p`, then R is appended to `destination[r]`,
the call returns `p`, the header of P with `n_buffers = 1` is written to
`destination[p]`, `offset[p]` is reset and `offset[r]` stays advanced. On a
freshly initialised communicator a first record with `n_buffers = 1` reaches the
emission with `last_hdr` never assigned. -/
theorem C17_header_from_previous_record (L : Layout) :
    (∀ (s : Communicator) (buffer : Nat → Nat → Option Cell) (stream : List ReadResult)
        (v : Int) (s' : Communicator) (buffer' : Nat → Nat → Option Cell)
        (rest : List ReadResult),
      recv_metadata L s buffer stream = Outcome.ret v s' buffer' rest →
      ∃ pre r l, stream = pre ++ r :: rest ∧ 0 ≤ r.len ∧
        decoded_last s.hdr pre = some l ∧ v = l.output ∧
        (∃ k : Nat, ∀ j, j < L.sizeof_vm_header →
          buffer' v.toNat j = some (Cell.hdr { l with n_buffers := (k : Int) } j)) ∧
        s'.offset v.toNat = L.sizeof_vm_header ∧ s'.hdr = some r.data.hdr) ∧
    (∀ (s : Communicator) (buffer : Nat → Nat → Option Cell) (P : vm_header)
        (R : ReadResult) (rest : List ReadResult),
      s.hdr = some P → P.counter = s.last_counter →
      0 ≤ P.output → P.output < (L.VM_MAX_OUTPUTS : Int) →
      R.len = record_size L → 0 ≤ R.data.hdr.output →
      R.data.hdr.output < (L.VM_MAX_OUTPUTS : Int) →
      R.data.hdr.n_buffers = 1 → R.data.hdr.output ≠ P.output →
      ∃ s' buffer', recv_metadata L s buffer (R :: rest) = Outcome.ret P.output s' buffer' rest ∧
        (∀ j, j < L.sizeof_vm_buffer_info →
          buffer' R.data.hdr.output.toNat (s.offset R.data.hdr.output.toNat + j)
            = some (Cell.info (stamp R.data) j)) ∧
        (∀ j, j < L.sizeof_vm_header →
          buffer' P.output.toNat j = some (Cell.hdr { P with n_buffers := 1 } j)) ∧
        s'.offset P.output.toNat = L.sizeof_vm_header ∧
        s'.offset R.data.hdr.output.toNat
          = s.offset R.data.hdr.output.toNat + L.sizeof_vm_buffer_info) ∧
    (∀ (s : Communicator) (buffer : Nat → Nat → Option Cell) (r : ReadResult)
        (rest : List ReadResult),
      Fresh L s → r.len = record_size L → 0 ≤ r.data.hdr.output →
      r.data.hdr.output < (L.VM_MAX_OUTPUTS : Int) → r.data.hdr.n_buffers = 1 →
      ∃ c, recv_loop L (enter s buffer) (r :: rest) = Stop.emit c rest ∧
        c.last_hdr = none ∧
        recv_metadata L s buffer (r :: rest) = Outcome.fault Fault.uninitialised) := by
  have hsz : (0 : Int) ≤ record_size L := Int.natCast_nonneg _
  refine ⟨?_, ?_, ?_⟩
  · intro s buffer stream v s' buffer' rest h
    unfold recv_metadata at h
    split at h
    · rename_i c rest0 hrun
      obtain ⟨l, hl, hv, -, -, hs', -, hr⟩ := emit_ret L _ _ _ _ _ _ h
      subst hr
      obtain ⟨l2, hl2, -, hb⟩ := emitted_header L c _ v s' buffer' _ h
      rw [hl] at hl2
      simp only [Option.some.injEq] at hl2
      subst hl2
      obtain ⟨pre, r, hst, hlen, hlast, hh⟩ :=
        emission_source L stream (enter s buffer) c _ (fun _ => rfl) hrun
      have hsrc : decoded_last s.hdr pre = c.last_hdr := hlast.symm
      refine ⟨pre, r, l, hst, hlen, ?_, hv, ⟨c.num_buffers, hb⟩, ?_, ?_⟩
      · rw [hsrc]; exact hl
      · rw [hs']; exact setAt_same _ _ _
      · rw [hs']; exact hh
    · exact Outcome.noConfusion h
    · exact Outcome.noConfusion h
  · intro s buffer P R rest hh hc hp0 hp1 hlen hr0 hr1 hn hne
    obtain ⟨c1, hc1⟩ : ∃ c1 : Cfg, c1 =
        { enter s buffer with
          last_hdr := some P, self := { (enter s buffer).self with last_counter := -1 } } :=
      ⟨_, rfl⟩
    have htop : loop_top L (enter s buffer) = Except.ok c1 := by
      rw [hc1]; exact loop_top_folded L (enter s buffer) P hh hc
    have hlast : c1.last_hdr = some P := by rw [hc1]
    have hbuf : c1.buffer = buffer := by rw [hc1]; rfl
    have hoff : c1.self.offset = s.offset := by rw [hc1]; rfl
    have hnum : c1.num_buffers = 0 := by rw [hc1]; rfl
    have hafter := after_read_append L c1 R (by rw [hlen]; exact hsz) hr0 hr1 (by rw [hc1])
    rw [hnum, if_pos (by rw [hn]; rfl)] at hafter
    have hrp : R.data.hdr.output.toNat ≠ P.output.toNat := by
      intro h; apply hne; omega
    have hrun : recv_metadata L s buffer (R :: rest)
        = emit L (append_record L c1 R) rest := by
      rw [recv_metadata, recv_loop_emit L _ _ _ _ _ htop hafter]
    have hem := emit_some L (append_record L c1 R) rest P hlast hp0 hp1
    have hone : (((append_record L c1 R).num_buffers : Nat) : Int) = 1 := by
      simp only [append_record, hnum]; rfl
    rw [hone] at hem
    refine ⟨_, _, hrun.trans hem, ?_, ?_, ?_, ?_⟩
    · intro j hj
      rw [setAt_other _ _ _ _ hrp]
      simp only [append_record, setAt_same, hbuf, hoff]
      exact memcpy_inside _ _ _ _ _ hj
    · intro j hj
      rw [setAt_same]
      have := memcpy_inside ((append_record L c1 R).buffer P.output.toNat)
        0 L.sizeof_vm_header (Cell.hdr { P with n_buffers := 1 }) j hj
      simpa using this
    · exact setAt_same _ _ _
    · show setAt _ _ _ _ = _
      rw [setAt_other _ _ _ _ hrp]
      simp only [append_record, setAt_same, hoff]
  · intro s buffer r rest hs hlen h0 h1 hn
    obtain ⟨c1, htop, hlast, -, -, -, hafter⟩ :=
      first_pass L s buffer r hs.1 (by rw [hlen]; exact hsz) h0 h1
    rw [if_pos hn.symm] at hafter
    refine ⟨_, recv_loop_emit L _ _ _ _ _ htop hafter, ?_, ?_⟩
    · simp only [append_record]; exact hlast
    · rw [recv_metadata, recv_loop_emit L _ _ _ _ _ htop hafter]
      simp [emit, append_record, hlast]

/-- C17, witness: after a frame for output 0, a call that reads the single
record `{out=1,seq=5,n=1}` returns 0. -/
theorem C17_header_from_previous_record_witness :
    ∃ s' buffer',
      recv_metadata sampleLayout sampleAfterFrame emptyBuffers [sampleRecord 1 5 1 12]
        = Outcome.ret 0 s' buffer' [] ∧
      (∀ j, j < sampleLayout.sizeof_vm_buffer_info →
        buffer' (1 : Int).toNat (sampleAfterFrame.offset (1 : Int).toNat + j)
          = some (Cell.info (stamp (sampleRecord 1 5 1 12).data) j)) ∧
      (∀ j, j < sampleLayout.sizeof_vm_header →
        buffer' (0 : Int).toNat j
          = some (Cell.hdr { output := 0, counter := 1, n_buffers := 1, other := 0 } j)) ∧
      s'.offset (0 : Int).toNat = sampleLayout.sizeof_vm_header ∧
      s'.offset (1 : Int).toNat
        = sampleAfterFrame.offset (1 : Int).toNat + sampleLayout.sizeof_vm_buffer_info :=
  (C17_header_from_previous_record sampleLayout).2.1 sampleAfterFrame emptyBuffers
    { output := 0, counter := 1, n_buffers := 2, other := 0 } (sampleRecord 1 5 1 12) []
    rfl rfl (by decide) (by decide) rfl (by decide) (by decide) rfl (by decide)

end HyperDMABUF
